import Mathlib

/-!
Verification of the crawl/fetch/persist pipeline of `Masyde-ws.py`
(class `WebsiteProcessor`).

The Python source is shallowly embedded below.  The embedding follows the
source function by function:

* `urlsplit`, `pathName`, `pathSuffix`, `lstripSlash`, `rstripSlash`,
  `pyReplace`, `strContains` model the Python standard-library helpers the
  source calls (`urllib.parse.urlsplit`, `pathlib.Path.name/.suffix`,
  `str.lstrip("/")`, `str.rstrip("/")`, `str.replace`, `in`).
* `savePlan` embeds the path/category derivation of `_save_file`
  (lines 260-293).
* `rewriteUrls` embeds `_rewrite_urls` (lines 310-325), including the exact
  `str.replace` call used for the substitution.
* `fetchWithRedirects` embeds `_fetch_with_redirects` (lines 177-217),
  `downloadAsset`/`assetLoop` embed `_download_asset` (lines 219-246),
  `crawlPage` embeds `_crawl_page` (lines 137-175).
* `analyzeMeta` embeds the metadata loop of `_analyze_content`
  (lines 330-335); `analyzeJs` embeds `_analyze_js` (lines 357-382).

External collaborators (the HTTP client, the headless browser, the HTML
parser, `urljoin`, the regex filter, the API probe, the esprima parser) are
abstracted into an `Env` record of oracle functions; every awaited network
operation consumes one abstract time step (`tick`), and the run-scoped stop
flag is sampled through `Env.runningAt` at exactly the program points where
the source reads `self.running`.  Observable events (HTTP GETs, sleeps,
browser launches/teardowns, logical page and asset fetches, file saves) are
recorded in the `State` so that the specification's temporal and counting
claims can be stated.  Unbounded Python recursion (`_crawl_page`,
`_fetch_with_redirects`) is given an explicit fuel parameter; exhausted fuel
returns the failure value, an artifact never reached by theorems, which
always supply sufficient fuel.
-/

namespace Masyde

/-! ### Characters and basic Python string helpers -/

/-- The double-quote character. -/
def dquote : Char := Char.ofNat 34

/-- The single-quote character. -/
def squote : Char := Char.ofNat 39

/-- Substring test on character lists (Python's `pat in s`). -/
def isSubstr (pat : List Char) : List Char → Bool
  | [] => pat.isEmpty
  | c :: rest => pat.isPrefixOf (c :: rest) || isSubstr pat rest

/-- Python's `pat in s` for strings. -/
def strContains (s pat : String) : Bool := isSubstr pat.data s.data

/-- Python's `s.lstrip("/")`: drop all leading slashes. -/
def lstripSlash (s : String) : String := ⟨s.data.dropWhile (fun c => c = '/')⟩

/-- Python's `s.rstrip("/")`: drop all trailing slashes. -/
def rstripSlash (s : String) : String :=
  ⟨((s.data.reverse.dropWhile (fun c => c = '/'))).reverse⟩

/-- Core of Python's `str.replace` for a non-empty pattern: scan left to
right, replacing non-overlapping occurrences.  The fuel is the length of the
scanned list (each step consumes at least one character). -/
def pyReplaceCore (pat rep : List Char) : Nat → List Char → List Char
  | 0, l => l
  | _ + 1, [] => []
  | n + 1, c :: rest =>
    if pat.isPrefixOf (c :: rest) then
      rep ++ pyReplaceCore pat rep n (rest.drop (pat.length - 1))
    else c :: pyReplaceCore pat rep n rest

/-- Python's `s.replace(pat, rep)`.  For an empty pattern Python inserts the
replacement at every character boundary (`"abc".replace("", "X") =
"XaXbXcX"`). -/
def pyReplace (s pat rep : String) : String :=
  if pat.data.isEmpty then ⟨rep.data ++ s.data.foldr (fun c acc => c :: rep.data ++ acc) []⟩
  else ⟨pyReplaceCore pat.data rep.data s.data.length s.data⟩

/-- Python's `s.lower()` restricted to ASCII (all inputs of interest are
ASCII): lower-case every character. -/
def strLower (s : String) : String := ⟨s.data.map Char.toLower⟩

/-- Python's `s.startswith(pre)`. -/
def strStarts (s pre : String) : Bool := pre.data.isPrefixOf s.data

/-! ### `urllib.parse.urlsplit` -/

/-- Split a character list on a separator character (Python `str.split(c)`):
`splitChar '/' "a/b" = ["a","b"]`, `splitChar '/' "" = [""]`. -/
def splitChar (c : Char) : List Char → List (List Char)
  | [] => [[]]
  | x :: xs =>
    if x = c then [] :: splitChar c xs
    else
      match splitChar c xs with
      | [] => [[x]]
      | h :: t => (x :: h) :: t

/-- Split a character list at the first occurrence of `c`; returns the part
before and, when `c` occurs, the part after it. -/
def splitOnceChar (c : Char) : List Char → List Char × Option (List Char)
  | [] => ([], none)
  | x :: xs =>
    if x = c then ([], some xs)
    else
      let r := splitOnceChar c xs
      (x :: r.1, r.2)

/-- The result of `urllib.parse.urlsplit`. -/
structure UrlParts where
  scheme : String
  netloc : String
  path : String
  query : String
  fragment : String
deriving Repr, DecidableEq

/-- Characters allowed in a URL scheme. -/
def isSchemeChar (c : Char) : Bool := c.isAlphanum || c = '+' || c = '-' || c = '.'

/-- Embedding of `urllib.parse.urlsplit`: split off the scheme (when the
part before the first `:` is a valid scheme name), then the network
location after `//` (delimited by `/`, `?` or `#`), then the fragment after
the first `#`, then the query after the first `?`; the remainder is the
path.  (The rarely used `;parameters` split of `urlparse` is not modelled;
no claim involves it.) -/
def urlsplit (url : String) : UrlParts :=
  let l := url.data
  let sp := splitOnceChar ':' l
  let schemeRest : String × List Char :=
    match sp.2 with
    | some r =>
      if sp.1 ≠ [] ∧ sp.1.all isSchemeChar then (strLower ⟨sp.1⟩, r) else ("", l)
    | none => ("", l)
  let netlocRest : List Char × List Char :=
    match schemeRest.2 with
    | '/' :: '/' :: r =>
      let nl := r.takeWhile (fun c => ¬ (c = '/' ∨ c = '?' ∨ c = '#'))
      (nl, r.drop nl.length)
    | r => ([], r)
  let fr := splitOnceChar '#' netlocRest.2
  let q := splitOnceChar '?' fr.1
  { scheme := schemeRest.1
    netloc := ⟨netlocRest.1⟩
    path := ⟨q.1⟩
    query := ⟨(q.2.getD [])⟩
    fragment := ⟨(fr.2.getD [])⟩ }

/-! ### `pathlib.Path.name` and `.suffix` -/

/-- `pathlib.PurePosixPath(p).name`: the last path component, with empty and
`.` components normalized away. -/
def pathName (p : String) : String :=
  ⟨((splitChar '/' p.data).filter (fun c => ¬ (c = [] ∨ c = ['.']))).getLastD []⟩

/-- `pathlib.PurePosixPath(p).suffix`: the extension of the final component,
present only when the final dot is neither the first nor the last character
of the name. -/
def pathSuffix (p : String) : String :=
  let n := (pathName p).data
  let t := n.reverse.takeWhile (fun c => c ≠ '.')
  if 1 ≤ t.length ∧ t.length + 1 < n.length then ⟨'.' :: t.reverse⟩ else ""

example : pathSuffix "a/logo.png" = ".png" := by decide
example : pathSuffix "style" = "" := by decide
example : pathSuffix ".hidden" = "" := by decide
example : pathSuffix "archive.tar.gz" = ".gz" := by decide
example : pathSuffix "dot." = "" := by decide
example : urlsplit "http://h/data?x=1#f" =
    ⟨"http", "h", "/data", "x=1", "f"⟩ := by decide
example : urlsplit "//h/p" = ⟨"", "h", "/p", "", ""⟩ := by decide
example : urlsplit "page.html" = ⟨"", "", "page.html", "", ""⟩ := by decide

/-! ### Python dict (insertion-ordered, assignment overwrites in place) -/

/-- Python `d[k] = v` on an insertion-ordered association list: overwrite in
place when the key is present, append otherwise. -/
def dictSet (m : List (String × String)) (k v : String) : List (String × String) :=
  if m.any (fun p => p.1 == k) then m.map (fun p => if p.1 = k then (k, v) else p)
  else m ++ [(k, v)]

/-- Python `d.get(k)`. -/
def dictLookup (m : List (String × String)) (k : String) : Option String :=
  (m.find? (fun p => p.1 == k)).map Prod.snd

/-! ### `_save_file` path/category derivation (lines 260-293)

The file writes themselves are recorded as events; the algorithmic content
is the derivation of the storage subdirectory, path and extension. -/

/-- Extensions recognized in step 2 of `_save_file` (line 269). -/
def knownExts : List String := [".html", ".css", ".js", ".png", ".jpg", ".jpeg", ".gif", ".svg"]

/-- Lines 263-271 of `_save_file`: strip the leading slashes from the URL
path, compute the (lower-cased) extension; an empty path becomes
`index.html`, an unrecognized extension turns the path into a directory
index `<path>/index.html`. Returns `(path, ext)`. -/
def basePathExt (url : String) : String × String :=
  let parsed := urlsplit url
  let path := lstripSlash parsed.path
  let ext := strLower (pathSuffix path)
  if path = "" then ("index.html", ".html")
  else if ext ∉ knownExts then (rstripSlash path ++ "/index.html", ".html")
  else (path, ext)

/-- The image-extension table of line 284. -/
def imageExtTable : List (String × String) :=
  [(".png", ".png"), (".jpg", ".jpg"), (".jpeg", ".jpeg"), (".gif", ".gif"), (".svg", ".svg")]

/-- The storage decision of `_save_file`: host subtree, category
subdirectory, relative path and final extension. -/
structure SavePlan where
  host : String
  subdir : String
  path : String
  ext : String
deriving Repr, DecidableEq

/-- Lines 263-289 of `_save_file`: the full path/category derivation,
including the content-type dispatch that overrides subdirectory and
extension. -/
def savePlan (url contentType : String) : SavePlan :=
  let parsed := urlsplit url
  let pe := basePathExt url
  if strStarts contentType "text/html" then ⟨parsed.netloc, "html", pe.1, ".html"⟩
  else if strStarts contentType "text/css" then ⟨parsed.netloc, "css", pe.1, ".css"⟩
  else if strStarts contentType "application/javascript" || strStarts contentType "text/javascript" then
    ⟨parsed.netloc, "js", pe.1, ".js"⟩
  else if strStarts contentType "image/" then
    ⟨parsed.netloc, "images", pe.1, (dictLookup imageExtTable pe.2).getD ".png"⟩
  else ⟨parsed.netloc, "other", pe.1, if pe.2 = "" then ".bin" else pe.2⟩

example : savePlan "http://example.test/style" "" =
    ⟨"example.test", "other", "style/index.html", ".html"⟩ := by decide
example : savePlan "http://example.test/logo.png" "image/png" =
    ⟨"example.test", "images", "logo.png", ".png"⟩ := by decide
example : savePlan "http://example.test/" "text/html" =
    ⟨"example.test", "html", "index.html", ".html"⟩ := by decide

/-! ### `_rewrite_urls` (lines 310-325) -/

/-- Take characters up to the first occurrence of `c`; `some (before,
after)` when `c` occurs, `none` otherwise. -/
def takeUntilChar (c : Char) : List Char → Option (List Char × List Char)
  | [] => none
  | x :: xs =>
    if x = c then some ([], xs)
    else (takeUntilChar c xs).map (fun r => (x :: r.1, r.2))

/-- The `replace_url` closure of `_rewrite_urls` (lines 313-318).  Each
regex has a single capture group, so `match.group(1) or match.group(2)`
raises `IndexError` ("no such group") whenever the captured value is the
empty string (Python truthiness makes `or` evaluate `group(2)`); the
exception aborts the surrounding `re.sub` call (modelled by `none`).
Otherwise resolve the value against the base URL via the `urljoin`
collaborator, build the root-relative path, and substitute it into the
matched text with Python's `str.replace`, which replaces every occurrence
of the value in the matched text. -/
def replaceUrl (join : String → String → String) (base : String) (m v : List Char) :
    Option (List Char) :=
  if v.isEmpty then none
  else
    let url : String := ⟨v⟩
    let absUrl := join base url
    let parsed := urlsplit absUrl
    let relPath := if lstripSlash parsed.path = "" then "index.html" else lstripSlash parsed.path
    some (pyReplace ⟨m⟩ url ("/" ++ relPath)).data

/-- Try to match the regex `(?:href|src)=q([^q]*)q` (with quote character
`q`) at the head of the list; on success return the matched text, the
captured value and the rest of the input. -/
def tryMatchAttr (q : Char) (l : List Char) : Option (List Char × List Char × List Char) :=
  let lit1 := "href=".data ++ [q]
  let lit2 := "src=".data ++ [q]
  if lit1.isPrefixOf l then
    (takeUntilChar q (l.drop lit1.length)).map
      (fun r => (lit1 ++ r.1 ++ [q], r.1, r.2))
  else if lit2.isPrefixOf l then
    (takeUntilChar q (l.drop lit2.length)).map
      (fun r => (lit2 ++ r.1 ++ [q], r.1, r.2))
  else none

/-- One `re.sub` pass of `_rewrite_urls` for quote character `q`: scan left
to right, replacing each leftmost non-overlapping match; `none` when the
replacement callback raises (empty captured value).  Fuel is the input
length. -/
def subAttrPass (join : String → String → String) (base : String) (q : Char) :
    Nat → List Char → Option (List Char)
  | 0, l => some l
  | _ + 1, [] => some []
  | n + 1, c :: rest =>
    match tryMatchAttr q (c :: rest) with
    | some r =>
      match replaceUrl join base r.1 r.2.1 with
      | none => none
      | some rep => (subAttrPass join base q n r.2.2).map (fun t => rep ++ t)
    | none => (subAttrPass join base q n rest).map (fun t => c :: t)

/-- `_rewrite_urls` (lines 310-325): the double-quote pass followed by the
single-quote pass on its output; the surrounding `try` returns the value of
the local `content` variable at the time of the exception, so a failing
first pass yields the original text and a failing second pass yields the
first pass's output. -/
def rewriteUrls (join : String → String → String) (content base : String) : String :=
  match subAttrPass join base dquote content.data.length content.data with
  | none => content
  | some d =>
    match subAttrPass join base squote d.length d with
    | none => ⟨d⟩
    | some s2 => ⟨s2⟩

/-! ### Environment, configuration and session state -/

/-- An HTTP response as the source consumes it: status code, `Location`
header, `content-type` header and body (binary bodies are abstracted as
strings). -/
structure HttpResp where
  status : Nat
  location : Option String
  contentType : String
  body : String
deriving Repr, DecidableEq

/-- Outcome of one `client.get` call: a response, a transient network error
(`httpx.RequestError`) or any other exception. -/
inductive GetResult where
  | success (r : HttpResp)
  | netErr
  | otherErr
deriving Repr, DecidableEq

/-- The parse result of a page as `_crawl_page` consumes it: the `img/@src`,
`link[rel=stylesheet]/@href` and `script/@src` values, and the `a/@href`
values (lines 156-160). -/
structure Page where
  assets : List String
  links : List String

/-- An HTML element as the metadata loop of `_analyze_content` consumes it:
tag name and attributes in document order. -/
structure Elem where
  tag : String
  attrs : List (String × String)
deriving Repr, DecidableEq

/-- The external collaborators, abstracted as oracles.  Awaited operations
(`client.get`, `asyncio.sleep`, browser fetches) each consume one abstract
time step; `runningAt t` is the value of the run-scoped stop flag `self.running`
when sampled at time `t` (the flag is flipped from outside the event loop by
`stop()`); `get t` / `browserOp t` is the outcome of the network operation
started at time `t`. -/
structure Env where
  runningAt : Nat → Bool
  get : Nat → GetResult
  browserOp : Nat → Option String
  parse : String → Page
  parseDoc : String → List Elem
  join : String → String → String
  filterUrl : String → Bool
  probe : String → Option (Nat × String)
  jsParse : String → Option Unit

/-- Run configuration: `crawl_depth`, `retries`, `root_domain`,
`use_browser` as set in `__init__`, plus an explicit recursion bound for
`_fetch_with_redirects` (a model artifact standing for Python's unbounded
recursion; theorems always supply enough). -/
structure Config where
  crawl_depth : Nat
  retries : Nat
  root_domain : String
  use_browser : Bool
  fetchFuel : Nat

/-- One `{url, status, response}` record of `analysis["api_endpoints"]`. -/
structure ApiEntry where
  url : String
  status : Nat
  response : String
deriving Repr, DecidableEq

/-- The `self.analysis` aggregate (lines 82-89). -/
structure Analysis where
  keywords : List String
  metadata : List (String × String)
  hidden_elements : List String
  inline_scripts : List String
  api_endpoints : List ApiEntry
  frontend_frameworks : List String
deriving Repr, DecidableEq

/-- A file-save event of `_save_file`: the URL, the content actually
written (after URL rewriting for textual content) and the derived storage
plan. -/
structure SavedFile where
  url : String
  content : String
  plan : SavePlan
deriving Repr, DecidableEq

/-- The crawl-session state: the shared mutable fields of
`WebsiteProcessor` (`visited_urls`, `sitemap`, `redirects`, `analysis`)
together with the abstract clock and the event logs that make fetches,
sleeps, browser launches/teardowns and saves observable.  `visited` models
the Python set `visited_urls` (membership is exact string equality);
`pageFetches` records each logical page fetch started by `_crawl_page`
(with its depth), `assetFetches` each logical asset download started by
`_download_asset`, `gets` each individual `client.get` call (with its start
time), `sleeps` each `asyncio.sleep` (duration, start time). -/
@[ext]
structure State where
  tick : Nat
  visited : List String
  sitemap : List String
  redirects : List (String × String)
  pageFetches : List (String × Nat)
  assetFetches : List String
  gets : List (String × Nat)
  sleeps : List (Nat × Nat)
  launches : List Nat
  closes : List Nat
  savedFiles : List SavedFile
  analysis : Analysis
deriving Repr, DecidableEq

/-- The state at the start of `download_website`. -/
def initState : State :=
  ⟨0, [], [], [], [], [], [], [], [], [], [], ⟨[], [], [], [], [], []⟩⟩

/-! ### `_fetch_with_redirects` (lines 177-217) -/

/-- The redirect statuses of line 195. -/
def redirectCodes : List Nat := [301, 302, 303, 307, 308]

/-- Embedding of `_fetch_with_redirects(url, attempt)`.  Returns the final
URL, the optional content and the updated state.

* Browser mode (lines 186-192): launch a fresh browser (recorded in
  `launches`), fetch; on success record the teardown in `closes` and return
  the rendered HTML.  A raised browser error is not an `httpx.RequestError`,
  so it falls into the generic `except Exception` handler of lines 212-217:
  sleep `2^attempt` and retry while `attempt < retries` (the browser is not
  closed on this path).
* HTTP mode (lines 194-207): on a redirect status follow the `Location`
  header (resolved by the `urljoin` collaborator), record the hop in
  `redirects` (a dict assignment) and recurse without touching `attempt`;
  a missing `Location` or a non-200 status fails immediately.
* `httpx.RequestError` (lines 208-211): sleep `2^attempt`, retry with
  `attempt+1` (the attempt bound is only re-checked at the top of the
  recursive call). -/
def fetchWithRedirects (env : Env) (cfg : Config) :
    Nat → String → Nat → State → String × Option String × State
  | 0, url, _, s => (url, none, s)
  | fuel + 1, url, attempt, s =>
    if env.runningAt s.tick = false then (url, none, s)
    else if cfg.retries < attempt then (url, none, s)
    else if cfg.use_browser then
      let t := s.tick
      let s1 := { s with tick := t + 1, launches := s.launches ++ [t] }
      match env.browserOp t with
      | some html => (url, some html, { s1 with closes := s1.closes ++ [t] })
      | none =>
        if attempt < cfg.retries then
          let s2 := { s1 with tick := s1.tick + 1, sleeps := s1.sleeps ++ [(2 ^ attempt, s1.tick)] }
          fetchWithRedirects env cfg fuel url (attempt + 1) s2
        else (url, none, s1)
    else
      let t := s.tick
      let s1 := { s with tick := t + 1, gets := s.gets ++ [(url, t)] }
      match env.get t with
      | GetResult.success r =>
        if r.status ∈ redirectCodes then
          match r.location with
          | none => (url, none, s1)
          | some loc =>
            let nxt := env.join url loc
            let s2 := { s1 with redirects := dictSet s1.redirects url nxt }
            fetchWithRedirects env cfg fuel nxt attempt s2
        else if r.status ≠ 200 then (url, none, s1)
        else (url, some r.body, s1)
      | GetResult.netErr =>
        let s2 := { s1 with tick := s1.tick + 1, sleeps := s1.sleeps ++ [(2 ^ attempt, s1.tick)] }
        fetchWithRedirects env cfg fuel url (attempt + 1) s2
      | GetResult.otherErr =>
        if attempt < cfg.retries then
          let s2 := { s1 with tick := s1.tick + 1, sleeps := s1.sleeps ++ [(2 ^ attempt, s1.tick)] }
          fetchWithRedirects env cfg fuel url (attempt + 1) s2
        else (url, none, s1)

/-! ### `_analyze_js` (lines 357-382) -/

/-- Is `c` one of the two quote characters of the char class `['\x22]`
alternation used by the API regex? -/
def isQuoteChar (c : Char) : Bool := c = dquote || c = squote

/-- Try to match `['\x22](https?://[^'\x22]*/api/[^'\x22]*)['\x22]` at the
head of the list: an opening quote (either kind), a scheme, a quote-free
span containing `/api/`, a closing quote (either kind).  On success return
the captured group and the input after the closing quote. -/
def tryMatchApi (l : List Char) : Option (List Char × List Char) :=
  match l with
  | [] => none
  | c :: r =>
    if isQuoteChar c then
      let sch : Option (List Char × List Char) :=
        if "https://".data.isPrefixOf r then some ("https://".data, r.drop 8)
        else if "http://".data.isPrefixOf r then some ("http://".data, r.drop 7)
        else none
      match sch with
      | none => none
      | some pr =>
        let span := pr.2.takeWhile (fun c => ¬ isQuoteChar c)
        match pr.2.drop span.length with
        | [] => none
        | _ :: tail =>
          if isSubstr "/api/".data span then some (pr.1 ++ span, tail) else none
    else none

/-- `re.findall` of the API regex (line 360): leftmost non-overlapping
matches, scanning forward one character on failure.  Fuel is the input
length. -/
def findApiUrls : Nat → List Char → List String
  | 0, _ => []
  | _ + 1, [] => []
  | n + 1, c :: rest =>
    match tryMatchApi (c :: rest) with
    | some r => (⟨r.1⟩ : String) :: findApiUrls n r.2
    | none => findApiUrls n rest

/-- `_analyze_js` (lines 357-382): extract API-looking URLs, probe each one
(failures swallowed), append a `{url, status, response}` record per
successful probe (`response` is the first 200 characters of the body for a
200 status, empty otherwise); then attempt the esprima parse whose
variable-renaming result is assigned to the local `content` variable and
discarded — both parse outcomes leave the state identical. -/
def analyzeJs (env : Env) (content _url : String) (s : State) : State :=
  let entries := (findApiUrls content.data.length content.data).filterMap
    (fun apiUrl =>
      match env.probe apiUrl with
      | none => none
      | some pr =>
        some ⟨apiUrl, pr.1, if pr.1 = 200 then (⟨pr.2.data.take 200⟩ : String) else ""⟩)
  let s1 := { s with analysis :=
    { s.analysis with api_endpoints := s.analysis.api_endpoints ++ entries } }
  match env.jsParse content with
  | some _ => s1
  | none => s1

/-! ### The metadata loop of `_analyze_content` (lines 330-335)

The loop iterates over `//meta[@name or @property]`, but inside the loop it
queries `selector` — the whole document — rather than the current element:
`selector.xpath(".//@name|.//@property").get()` and
`selector.xpath(".//@content").get()` always return the first such
attribute of the entire document. -/

/-- The elements matched by `//meta[@name or @property]`. -/
def metaElems (doc : List Elem) : List Elem :=
  doc.filter (fun e =>
    e.tag == "meta" &&
      (e.attrs.any (fun p => p.1 == "name") || e.attrs.any (fun p => p.1 == "property")))

/-- `selector.xpath(".//@name|.//@property").get()`: the first `name` or
`property` attribute value of the whole document, in document order. -/
def firstNameOrProp (doc : List Elem) : Option String :=
  ((doc.foldr (fun e acc => e.attrs ++ acc) []).filter
    (fun p => p.1 == "name" || p.1 == "property")).head?.map Prod.snd

/-- `selector.xpath(".//@content").get()`: the first `content` attribute
value of the whole document. -/
def firstContentAttr (doc : List Elem) : Option String :=
  ((doc.foldr (fun e acc => e.attrs ++ acc) []).filter
    (fun p => p.1 == "content")).head?.map Prod.snd

/-- One iteration of the metadata loop (lines 332-335): look up the
document-first name/property attribute and the document-first content
attribute — the loop queries `selector`, not the current element `m` — and
when both are non-empty strings (Python truthiness of `if name and value`)
assign `metadata[name] = value`. -/
def metaStep (doc : List Elem) (st : State) : State :=
  match firstNameOrProp doc, firstContentAttr doc with
  | some n, some v =>
    if n = "" ∨ v = "" then st
    else { st with analysis :=
      { st.analysis with metadata := dictSet st.analysis.metadata n v } }
  | _, _ => st

/-- The metadata loop of `_analyze_content` (lines 330-335): iterate
`metaStep` once per element matched by `//meta[@name or @property]`. -/
def analyzeMeta (doc : List Elem) (s : State) : State :=
  (metaElems doc).foldl (fun st _ => metaStep doc st) s

/-! ### `_save_file` as a state event (lines 260-308) -/

/-- `_save_file(url, content, is_binary, content_type)`: derive the storage
plan, rewrite URLs in textual content (line 300), and record the write.
Filesystem errors are caught in the source and do not propagate. -/
def saveFileSt (env : Env) (url content : String) (isBinary : Bool)
    (contentType : String) (s : State) : State :=
  let plan := savePlan url contentType
  let contentToSave := if isBinary then content else rewriteUrls env.join content url
  { s with savedFiles := s.savedFiles ++ [⟨url, contentToSave, plan⟩] }

/-! ### `_download_asset` (lines 219-246) -/

/-- The retry loop of `_download_asset` (lines 227-246), iterating over the
remaining attempt numbers of `range(1, retries + 1)`.  Note that the loop
body contains no check of `self.running`:

* status 200: compute the content type (lower-cased), binaryness, save the
  file, run `_analyze_js` for textual JavaScript, `break`;
* any other status: log and continue with the next attempt (no sleep);
* `httpx.RequestError`: sleep `2^attempt` when `attempt < retries`, then
  continue;
* any other exception: `break`. -/
def assetLoop (env : Env) (cfg : Config) (url : String) : List Nat → State → State
  | [], s => s
  | attempt :: rest, s =>
    let t := s.tick
    let s1 := { s with tick := t + 1, gets := s.gets ++ [(url, t)] }
    match env.get t with
    | GetResult.success r =>
      if r.status = 200 then
        let ct := strLower r.contentType
        let isBinary := !(strContains ct "text") && !(strContains ct "html")
        let s2 := saveFileSt env url r.body isBinary ct s1
        if strContains ct "javascript" && !isBinary then analyzeJs env r.body url s2 else s2
      else assetLoop env cfg url rest s1
    | GetResult.netErr =>
      if attempt < cfg.retries then
        let s2 := { s1 with tick := s1.tick + 1, sleeps := s1.sleeps ++ [(2 ^ attempt, s1.tick)] }
        assetLoop env cfg url rest s2
      else assetLoop env cfg url rest s1
    | GetResult.otherErr => s1

/-- The attempt numbers `range(1, retries + 1)` of line 227. -/
def assetAttemptList (retries : Nat) : List Nat := (List.range retries).map (fun i => i + 1)

/-- `_download_asset(url)` (lines 219-246): sample the stop flag once at
entry, skip URLs already visited or rejected by the filter, otherwise add
the URL to `visited_urls` (before any fetch), record the logical asset
fetch, and run the retry loop. -/
def downloadAsset (env : Env) (cfg : Config) (url : String) (s : State) : State :=
  if env.runningAt s.tick = false then s
  else if url ∈ s.visited ∨ env.filterUrl url = false then s
  else
    let s1 := { s with visited := url :: s.visited, assetFetches := s.assetFetches ++ [url] }
    assetLoop env cfg url (assetAttemptList cfg.retries) s1

/-! ### `_crawl_page` (lines 137-175) -/

/-- `_crawl_page(url, depth)`: return when the stop flag is down, the depth
exceeds `crawl_depth` or the URL was already visited; return when the
filter rejects the URL; otherwise add the URL to `visited_urls` and
`sitemap` (both before the fetch), record the logical page fetch with its
depth, fetch, and — when non-empty content was obtained — save it as
`text/html`, run the metadata analysis, download every referenced asset
(the `asyncio.gather` fan-out is serialized here; each task's
check-then-add of `visited_urls` is atomic in the source, so the visited
set and event multisets agree with the sequential order), and finally
recurse at `depth + 1` into every link whose host equals the root domain.
The fuel bounds the recursion depth (the source recursion is bounded by
`crawl_depth` in any terminating run). -/
def crawlPage (env : Env) (cfg : Config) : Nat → String → Nat → State → State
  | 0, _, _, s => s
  | fuel + 1, url, depth, s =>
    if env.runningAt s.tick = false ∨ cfg.crawl_depth < depth ∨ url ∈ s.visited then s
    else if env.filterUrl url = false then s
    else
      let s1 := { s with visited := url :: s.visited, sitemap := s.sitemap ++ [url],
                         pageFetches := s.pageFetches ++ [(url, depth)] }
      match fetchWithRedirects env cfg cfg.fetchFuel url 1 s1 with
      | (_, none, s2) => s2
      | (finalUrl, some content, s2) =>
        if content = "" then s2
        else
          let s3 := saveFileSt env finalUrl content false "text/html" s2
          let s4 := analyzeMeta (env.parseDoc content) s3
          let page := env.parse content
          let s5 := page.assets.foldl
            (fun st a => downloadAsset env cfg (env.join finalUrl a) st) s4
          page.links.foldl
            (fun st l =>
              let absUrl := env.join finalUrl l
              if (urlsplit absUrl).netloc = cfg.root_domain then
                crawlPage env cfg fuel absUrl (depth + 1) st
              else st) s5

/-! ## Claim C5: `_save_file` path/category derivation -/

/-- C5 counterexample: a URL with no recognizable extension
(`http://h/data`) and an unknown content type is saved under `other/` with
extension `.html` (as `data/index.html`), not `.bin` as the claim's final
clause states: steps 1-2 of the derivation always leave a non-empty
extension, so the `.bin` default of line 287 is unreachable. -/
theorem claim5_save_cex :
    savePlan "http://h/data" "application/octet-stream" =
      ⟨"h", "other", "data/index.html", ".html"⟩ ∧
    (savePlan "http://h/data" "application/octet-stream").ext ≠ ".bin" := by
  decide

/-- C5 (amended): the storage path and category follow the ordered
derivation of the claim (strip the leading slash, empty path becomes
`index.html`, unrecognized extension appends `/index.html`; a present
content type overrides subdirectory and extension as listed), except that
the pre-dispatch extension is always one of the recognized extensions or
`.html` — in particular never empty — so in the `other/` branch the
extension is always kept and the `.bin` default is dead: a URL with
unknown content type and no recognizable extension is saved under `other/`
as `.html` (`<path>/index.html`). -/
theorem claim5_save_amended (url contentType : String) :
    (basePathExt url).2 ∈ knownExts ∧
    (savePlan url contentType).path = (basePathExt url).1 ∧
    (strStarts contentType "text/html" = true →
      (savePlan url contentType).subdir = "html" ∧ (savePlan url contentType).ext = ".html") ∧
    (strStarts contentType "text/html" = false → strStarts contentType "text/css" = true →
      (savePlan url contentType).subdir = "css" ∧ (savePlan url contentType).ext = ".css") ∧
    (strStarts contentType "text/html" = false → strStarts contentType "text/css" = false →
      (strStarts contentType "application/javascript" || strStarts contentType "text/javascript") = true →
      (savePlan url contentType).subdir = "js" ∧ (savePlan url contentType).ext = ".js") ∧
    (strStarts contentType "text/html" = false → strStarts contentType "text/css" = false →
      strStarts contentType "application/javascript" = false →
      strStarts contentType "text/javascript" = false →
      strStarts contentType "image/" = true →
      (savePlan url contentType).subdir = "images" ∧
      (savePlan url contentType).ext = (dictLookup imageExtTable (basePathExt url).2).getD ".png") ∧
    (strStarts contentType "text/html" = false → strStarts contentType "text/css" = false →
      strStarts contentType "application/javascript" = false →
      strStarts contentType "text/javascript" = false →
      strStarts contentType "image/" = false →
      (savePlan url contentType).subdir = "other" ∧
      (savePlan url contentType).ext = (basePathExt url).2 ∧
      (savePlan url contentType).ext ≠ ".bin") := by
  have hbase : (basePathExt url).2 ∈ knownExts := by
    unfold basePathExt
    dsimp only
    split
    · simp [knownExts]
    · split
      · simp [knownExts]
      · rename_i h
        exact of_not_not h
  have hbin : (basePathExt url).2 ≠ ".bin" := by
    intro h
    rw [h] at hbase
    simp [knownExts] at hbase
  refine ⟨hbase, ?_, ?_, ?_, ?_, ?_, ?_⟩
  · unfold savePlan
    dsimp only
    split_ifs <;> rfl
  · intro h1
    unfold savePlan
    dsimp only
    rw [h1]
    simp
  · intro h1 h2
    unfold savePlan
    dsimp only
    rw [h1, h2]
    simp
  · intro h1 h2 h3
    unfold savePlan
    dsimp only
    rw [h1, h2, h3]
    simp
  · intro h1 h2 h3 h4 h5
    unfold savePlan
    dsimp only
    rw [h1, h2, h3, h4, h5]
    simp
  · intro h1 h2 h3 h4 h5
    have hne : (basePathExt url).2 ≠ "" := by
      intro h
      rw [h] at hbase
      simp [knownExts] at hbase
    unfold savePlan
    dsimp only
    rw [h1, h2, h3, h4, h5]
    simp
    exact ⟨fun h => absurd h hne, hne, hbin⟩

/-- Witness for `claim5_save_amended` at the spec's own example inputs. -/
theorem claim5_save_amended_witness :
    (strStarts "application/octet-stream" "text/html" = false ∧
      strStarts "application/octet-stream" "text/css" = false ∧
      strStarts "application/octet-stream" "application/javascript" = false ∧
      strStarts "application/octet-stream" "text/javascript" = false ∧
      strStarts "application/octet-stream" "image/" = false) ∧
    (savePlan "http://h/style" "application/octet-stream").subdir = "other" ∧
    (savePlan "http://h/style" "application/octet-stream").ext ≠ ".bin" :=
  ⟨by decide,
    ((claim5_save_amended "http://h/style" "application/octet-stream").2.2.2.2.2.2
      (by decide) (by decide) (by decide) (by decide) (by decide)).1,
    ((claim5_save_amended "http://h/style" "application/octet-stream").2.2.2.2.2.2
      (by decide) (by decide) (by decide) (by decide) (by decide)).2.2⟩

/-! ## Claim C9: the metadata extraction -/

/-- Overwriting the same key with the same value twice is the same as doing
it once. -/
theorem dictSet_idem (m : List (String × String)) (k v : String) :
    dictSet (dictSet m k v) k v = dictSet m k v := by
  unfold dictSet
  by_cases h : m.any (fun p => p.1 == k) = true
  · rw [if_pos h]
    have h2 : (m.map (fun p => if p.1 = k then (k, v) else p)).any (fun p => p.1 == k) = true := by
      rw [List.any_eq_true] at h ⊢
      obtain ⟨p, hp, hpk⟩ := h
      refine ⟨(k, v), List.mem_map.mpr ⟨p, hp, ?_⟩, by simp⟩
      simp only [beq_iff_eq] at hpk
      simp [hpk]
    rw [if_pos h2, List.map_map]
    apply List.map_congr_left
    intro p _
    by_cases hpk : p.1 = k <;> simp [hpk]
  · rw [if_neg h]
    have h3 : ∀ p ∈ m, ¬ p.1 = k := by
      have := (Bool.not_eq_true _).mp h
      rw [List.any_eq_false] at this
      intro p hp
      simpa using this p hp
    have h2 : ((m ++ [(k, v)]).any (fun p => p.1 == k)) = true := by
      simp
    rw [if_pos h2, List.map_append]
    have hm : m.map (fun p => if p.1 = k then (k, v) else p) = m := by
      have hid : m.map (fun p => if p.1 = k then (k, v) else p) = m.map id := by
        apply List.map_congr_left
        intro p hp
        simp [h3 p hp]
      simpa using hid
    rw [hm]
    simp

/-- A `foldl` whose body ignores the list element and applies an idempotent
function collapses to at most one application. -/
theorem foldl_idem {α σ : Type} [DecidableEq α] (g : σ → σ) (hg : ∀ x, g (g x) = g x) :
    ∀ (l : List α) (x : σ), l.foldl (fun acc _ => g acc) x = if l = [] then x else g x := by
  intro l
  induction l with
  | nil => intro x; rfl
  | cons a t ih =>
    intro x
    simp only [List.foldl_cons, ih]
    cases t <;> simp [hg]

/-- `metaStep` is idempotent: every loop iteration writes the same pair. -/
theorem metaStep_idem (doc : List Elem) (st : State) :
    metaStep doc (metaStep doc st) = metaStep doc st := by
  cases hn : firstNameOrProp doc with
  | none => simp [metaStep, hn]
  | some n =>
    cases hc : firstContentAttr doc with
    | none => simp [metaStep, hn, hc]
    | some v =>
      by_cases hnv : n = "" ∨ v = ""
      · simp [metaStep, hn, hc, hnv]
      · simp [metaStep, hn, hc, hnv, dictSet_idem]

/-- Assigning `d[k] = v` makes a later lookup of `k` return `v`
(last-write-wins). -/
theorem dictLookup_dictSet (m : List (String × String)) (k v : String) :
    dictLookup (dictSet m k v) k = some v := by
  unfold dictSet
  by_cases h : m.any (fun p => p.1 == k) = true
  · rw [if_pos h]
    induction m with
    | nil => simp at h
    | cons p t ih =>
      by_cases hpk : p.1 = k
      · simp [dictLookup, hpk]
      · have ht : t.any (fun p => p.1 == k) = true := by
          simp only [List.any_cons, Bool.or_eq_true, beq_iff_eq] at h
          rcases h with h | h
          · exact absurd h hpk
          · exact h
        have := ih ht
        simpa [dictLookup, hpk] using this
  · rw [if_neg h]
    have h3 : ∀ p ∈ m, ¬ p.1 = k := by
      have := (Bool.not_eq_true _).mp h
      rw [List.any_eq_false] at this
      intro p hp
      simpa using this p hp
    induction m with
    | nil => simp [dictLookup]
    | cons p t ih =>
      have hpk := h3 p (by simp)
      have ih2 := ih ?_ ?_
      · simpa [dictLookup, hpk] using ih2
      · simp only [List.any_cons, Bool.or_eq_true] at h
        intro hc
        exact h (Or.inr hc)
      · intro q hq
        exact h3 q (by simp [hq])

/-- C9 counterexample: a document with two meta elements, `name="a"
content="1"` and `name="b" content="2"`.  The loop body queries the whole
document, so only the pair `(a, 1)` is ever written; the pair `(b, 2)` of
the second element is never recorded, contradicting "records that
element's name/content pair". -/
theorem claim9_meta_cex :
    (analyzeMeta
        [⟨"meta", [("name", "a"), ("content", "1")]⟩,
         ⟨"meta", [("name", "b"), ("content", "2")]⟩] initState).analysis.metadata =
      [("a", "1")] ∧
    dictLookup (analyzeMeta
        [⟨"meta", [("name", "a"), ("content", "1")]⟩,
         ⟨"meta", [("name", "b"), ("content", "2")]⟩] initState).analysis.metadata "b" =
      none := by
  decide

/-- C9 (amended): per call, the metadata loop writes at most one pair —
the document-first `name`/`property` attribute value paired with the
document-first `content` attribute value (when both are non-empty) — once
per matched meta element, which collapses to a single `dict` assignment;
in the aggregate mapping a later write to an existing key overwrites the
earlier value (last-write-wins). -/
theorem claim9_meta_amended (doc : List Elem) (s : State) :
    analyzeMeta doc s = (if metaElems doc = [] then s else metaStep doc s) ∧
    (∀ m k v, dictLookup (dictSet m k v) k = some v) :=
  ⟨foldl_idem (metaStep doc) (metaStep_idem doc) (metaElems doc) s,
   fun m k v => dictLookup_dictSet m k v⟩

/-! ## Claim C4: retry backoff timing -/

/-- When the attempt counter already exceeds the retry budget,
`_fetch_with_redirects` fails immediately (lines 181-183). -/
theorem fetchWR_exhausted (env : Env) (cfg : Config) (fuel : Nat) (u : String)
    (attempt : Nat) (s : State) (h : cfg.retries < attempt) :
    fetchWithRedirects env cfg (fuel + 1) u attempt s = (u, none, s) := by
  unfold fetchWithRedirects
  by_cases hr : env.runningAt s.tick = false
  · rw [if_pos hr]
  · rw [if_neg hr, if_pos h]

/-- Peeling the first element off a mapped `List.range`. -/
theorem range_map_shift {β : Type} (g : Nat → β) (k : Nat) :
    List.map g (List.range (k + 1)) = g 0 :: List.map (fun i => g (i + 1)) (List.range k) := by
  rw [List.range_succ_eq_map, List.map_cons, List.map_map]
  rfl

/-- Merging one freshly appended event with the events of a recursive call
shifted by one step. -/
theorem append_cons_map_shift {β : Type} (l : List β) (g g' : Nat → β) (k : Nat)
    (a : β) (ha : a = g 0) (hg : ∀ i, g' i = g (i + 1)) :
    (l ++ [a]) ++ List.map g' (List.range k) = l ++ List.map g (List.range (k + 1)) := by
  rw [range_map_shift, List.append_assoc, List.singleton_append, ha]
  have hmap : List.map g' (List.range k) = List.map (fun i => g (i + 1)) (List.range k) :=
    List.map_congr_left (fun i _ => hg i)
  rw [hmap]

/-- Full characterization of `_fetch_with_redirects` on a URL that suffers
a transient network failure at every attempt: starting at attempt
`attempt ≤ retries`, it performs one GET per remaining attempt at even
tick offsets, sleeps `2^a` time units immediately after the failed attempt
`a` (for `a = attempt, …, retries`), and fails. -/
theorem fetchWR_netErr (env : Env) (cfg : Config)
    (hrun : ∀ t, env.runningAt t = true) (hnet : ∀ t, env.get t = GetResult.netErr)
    (hb : cfg.use_browser = false) :
    ∀ fuel attempt s u, 1 ≤ attempt → attempt ≤ cfg.retries →
      cfg.retries + 2 ≤ fuel + attempt →
      fetchWithRedirects env cfg fuel u attempt s =
        (u, none,
          { s with
            tick := s.tick + 2 * (cfg.retries + 1 - attempt),
            gets := s.gets ++ (List.range (cfg.retries + 1 - attempt)).map
              (fun i => (u, s.tick + 2 * i)),
            sleeps := s.sleeps ++ (List.range (cfg.retries + 1 - attempt)).map
              (fun i => (2 ^ (attempt + i), s.tick + 2 * i + 1)) }) := by
  intro fuel
  induction fuel with
  | zero => intro attempt s u h1 h2 h3; omega
  | succ f ih =>
    intro attempt s u h1 h2 h3
    rw [show f + 1 = f + 1 from rfl]
    unfold fetchWithRedirects
    rw [hrun s.tick]
    rw [if_neg (by simp)]
    rw [if_neg (by omega : ¬ cfg.retries < attempt)]
    rw [if_neg (by simp [hb])]
    dsimp only
    rw [hnet s.tick]
    by_cases hlast : attempt = cfg.retries
    · obtain ⟨f', rfl⟩ : ∃ f', f = f' + 1 := ⟨f - 1, by omega⟩
      rw [fetchWR_exhausted env cfg f' u (attempt + 1) _ (by omega)]
      have hone : cfg.retries + 1 - attempt = 1 := by omega
      refine Prod.ext rfl (Prod.ext rfl ?_)
      apply State.ext <;> simp [hone, List.range_succ]
    · have ha : attempt < cfg.retries := lt_of_le_of_ne h2 hlast
      rw [ih (attempt + 1) _ u (by omega) (by omega) (by omega)]
      have hk : cfg.retries + 1 - attempt = (cfg.retries + 1 - (attempt + 1)) + 1 := by omega
      refine Prod.ext rfl (Prod.ext rfl ?_)
      dsimp only
      rw [hk]
      apply State.ext
      · dsimp only
        omega
      · rfl
      · rfl
      · rfl
      · rfl
      · rfl
      · dsimp only
        exact append_cons_map_shift s.gets (fun i => (u, s.tick + 2 * i))
          (fun i => (u, s.tick + 1 + 1 + 2 * i)) _ (u, s.tick) rfl
          (fun i => congrArg (fun x => (u, x)) (by omega))
      · dsimp only
        exact append_cons_map_shift s.sleeps (fun i => (2 ^ (attempt + i), s.tick + 2 * i + 1))
          (fun i => (2 ^ (attempt + 1 + i), s.tick + 1 + 1 + 2 * i + 1)) _
          (2 ^ attempt, s.tick + 1) rfl
          (fun i => by
            dsimp only
            rw [show attempt + 1 + i = attempt + (i + 1) from by omega,
                show s.tick + 1 + 1 + 2 * i + 1 = s.tick + 2 * (i + 1) + 1 from by omega])
      · rfl
      · rfl
      · rfl
      · rfl

/-- Full characterization of the `_download_asset` retry loop when every
attempt fails transiently: one GET per attempt at even tick offsets, a
sleep of `2^a` after every failed attempt `a` except the last (the loop
checks `attempt < retries` before sleeping). -/
theorem assetLoop_netErr (env : Env) (cfg : Config)
    (hnet : ∀ t, env.get t = GetResult.netErr) (u : String) :
    ∀ k a s, a + k = cfg.retries + 1 → 1 ≤ k →
      assetLoop env cfg u (List.range' a k) s =
        { s with
          tick := s.tick + 2 * (k - 1) + 1,
          gets := s.gets ++ (List.range k).map (fun i => (u, s.tick + 2 * i)),
          sleeps := s.sleeps ++ (List.range (k - 1)).map
            (fun i => (2 ^ (a + i), s.tick + 2 * i + 1)) } := by
  intro k
  induction k with
  | zero => intro a s h1 h2; omega
  | succ j ih =>
    intro a s h1 h2
    rw [List.range'_succ a j 1]
    unfold assetLoop
    dsimp only
    rw [hnet s.tick]
    dsimp only
    by_cases hj : j = 0
    · subst hj
      have hlast : ¬ a < cfg.retries := by omega
      rw [if_neg hlast]
      apply State.ext <;> simp [List.range_succ, List.range', assetLoop]
    · have hlt : a < cfg.retries := by omega
      rw [if_pos hlt]
      rw [ih (a + 1) _ (by omega) (by omega)]
      obtain ⟨j', rfl⟩ : ∃ j', j = j' + 1 := ⟨j - 1, by omega⟩
      apply State.ext
      · dsimp only
        omega
      · rfl
      · rfl
      · rfl
      · rfl
      · rfl
      · dsimp only
        exact append_cons_map_shift s.gets (fun i => (u, s.tick + 2 * i))
          (fun i => (u, s.tick + 1 + 1 + 2 * i)) _ (u, s.tick) rfl
          (fun i => congrArg (fun x => (u, x)) (by omega))
      · dsimp only
        simp only [Nat.add_sub_cancel]
        exact append_cons_map_shift s.sleeps (fun i => (2 ^ (a + i), s.tick + 2 * i + 1))
          (fun i => (2 ^ (a + 1 + i), s.tick + 1 + 1 + 2 * i + 1)) _
          (2 ^ a, s.tick + 1) rfl
          (fun i => by
            dsimp only
            rw [show a + 1 + i = a + (i + 1) from by omega,
                show s.tick + 1 + 1 + 2 * i + 1 = s.tick + 2 * (i + 1) + 1 from by omega])
      · rfl
      · rfl
      · rfl
      · rfl

/-- The attempt numbers of the asset retry loop form `range' 1 retries`. -/
theorem assetAttemptList_eq_range' (n : Nat) : assetAttemptList n = List.range' 1 n := by
  rw [assetAttemptList, List.range'_eq_map_range]
  apply List.map_congr_left
  intro i _
  omega

/-- Concrete all-transient-failures environment used by the C4 and C6
scenarios. -/
def envNetErr : Env :=
  ⟨fun _ => true, fun _ => GetResult.netErr, fun _ => none,
   fun _ => ⟨[], []⟩, fun _ => [], fun _ u => u, fun _ => true,
   fun _ => none, fun _ => none⟩

/-- A configuration with three retries, HTTP mode. -/
def cfgR3 : Config := ⟨2, 3, "h", false, 10⟩

/-- C4 counterexample: with `retries = 3` and every attempt failing
transiently, the page fetcher performs GETs at ticks 0, 2, 4 and the sleep
separating attempt 1 from attempt 2 (the sleep at tick 1) lasts `2^1 = 2`
time units, not `2^2 = 4` as the claim requires for the delay before retry
attempt 2: the code sleeps `2^attempt` after the failed attempt `attempt`,
so the delay before attempt `n` is `2^(n-1)`. -/
theorem claim4_backoff_cex :
    (fetchWithRedirects envNetErr cfgR3 10 "u" 1 initState).2.2.gets =
      [("u", 0), ("u", 2), ("u", 4)] ∧
    (fetchWithRedirects envNetErr cfgR3 10 "u" 1 initState).2.2.sleeps =
      [(2, 1), (4, 3), (8, 5)] ∧
    (2 : Nat) ≠ 2 ^ 2 := by
  decide

/-- C4 (amended): for a URL that fails transiently at every attempt, the
delay inserted before retry attempt `n` (n ≥ 2) equals `2^(n-1)` time
units — the code sleeps `2^attempt` right after failed attempt `attempt` —
and attempt 1 is preceded by no delay (its GET starts at the entry tick);
retrying stops once the budget is exhausted: the page fetcher makes
exactly `retries` GETs (with one final sleep of `2^retries` before the
exhaustion check), and the asset loop makes exactly `retries` GETs with
sleeps only between consecutive attempts. -/
theorem claim4_backoff_amended (env : Env) (cfg : Config)
    (hrun : ∀ t, env.runningAt t = true) (hnet : ∀ t, env.get t = GetResult.netErr)
    (hb : cfg.use_browser = false) (hr : 1 ≤ cfg.retries) :
    (∀ u s fuel, cfg.retries + 1 ≤ fuel →
      fetchWithRedirects env cfg fuel u 1 s =
        (u, none,
          { s with
            tick := s.tick + 2 * cfg.retries,
            gets := s.gets ++ (List.range cfg.retries).map (fun i => (u, s.tick + 2 * i)),
            sleeps := s.sleeps ++ (List.range cfg.retries).map
              (fun i => (2 ^ (1 + i), s.tick + 2 * i + 1)) })) ∧
    (∀ u s, u ∉ s.visited → env.filterUrl u = true →
      downloadAsset env cfg u s =
        { s with
          visited := u :: s.visited,
          assetFetches := s.assetFetches ++ [u],
          tick := s.tick + 2 * (cfg.retries - 1) + 1,
          gets := s.gets ++ (List.range cfg.retries).map (fun i => (u, s.tick + 2 * i)),
          sleeps := s.sleeps ++ (List.range (cfg.retries - 1)).map
            (fun i => (2 ^ (1 + i), s.tick + 2 * i + 1)) }) := by
  constructor
  · intro u s fuel hfuel
    have h := fetchWR_netErr env cfg hrun hnet hb fuel 1 s u le_rfl hr (by omega)
    simpa only [Nat.add_sub_cancel] using h
  · intro u s hv hf
    unfold downloadAsset
    rw [hrun s.tick]
    rw [if_neg (by simp)]
    rw [if_neg (by simp [hv, hf])]
    rw [assetAttemptList_eq_range']
    rw [assetLoop_netErr env cfg hnet u cfg.retries 1 _ (by omega) hr]

/-- Witness for `claim4_backoff_amended`: with three retries the page
fetcher's sleep durations are `2, 4, 8` and the asset loop's are `2, 4`. -/
theorem claim4_backoff_amended_witness :
    (fetchWithRedirects envNetErr cfgR3 10 "u" 1 initState).2.2.sleeps.map Prod.fst =
      [2, 4, 8] ∧
    (downloadAsset envNetErr cfgR3 "a" initState).sleeps.map Prod.fst = [2, 4] := by
  have h := claim4_backoff_amended envNetErr cfgR3 (fun _ => rfl) (fun _ => rfl) rfl
    (by decide)
  constructor
  · rw [h.1 "u" initState 10 (by decide)]
    decide
  · rw [h.2 "a" initState (by decide) rfl]
    decide

/-! ## Claim C6: the stop flag -/

/-- Boolean flag helper. -/
theorem runningAt_true_of_not_false {env : Env} {t : Nat}
    (h : ¬ env.runningAt t = false) : env.runningAt t = true := by
  cases hv : env.runningAt t
  · exact absurd hv h
  · rfl

/-- Every GET and every browser launch performed by
`_fetch_with_redirects` starts at a time where the stop flag was up: the
flag is re-sampled at the top of every redirect hop and every retry
recursion, and the subsequent network operation starts at the sampled
tick. -/
theorem fetchWR_flag (env : Env) (cfg : Config) :
    ∀ fuel url attempt s,
      (∀ g ∈ (fetchWithRedirects env cfg fuel url attempt s).2.2.gets,
        g ∈ s.gets ∨ env.runningAt g.2 = true) ∧
      (∀ t ∈ (fetchWithRedirects env cfg fuel url attempt s).2.2.launches,
        t ∈ s.launches ∨ env.runningAt t = true) := by
  intro fuel
  induction fuel with
  | zero =>
    intro url attempt s
    exact ⟨fun g hg => Or.inl hg, fun t ht => Or.inl ht⟩
  | succ f ih =>
    intro url attempt s
    unfold fetchWithRedirects
    by_cases hr : env.runningAt s.tick = false
    · rw [if_pos hr]
      exact ⟨fun g hg => Or.inl hg, fun t ht => Or.inl ht⟩
    · rw [if_neg hr]
      have hrt : env.runningAt s.tick = true := runningAt_true_of_not_false hr
      by_cases hatt : cfg.retries < attempt
      · rw [if_pos hatt]
        exact ⟨fun g hg => Or.inl hg, fun t ht => Or.inl ht⟩
      · rw [if_neg hatt]
        have hgetsStep : ∀ g : String × Nat, g ∈ s.gets ++ [(url, s.tick)] →
            g ∈ s.gets ∨ env.runningAt g.2 = true := by
          intro g hg
          rcases List.mem_append.mp hg with h | h
          · exact Or.inl h
          · right
            have : g = (url, s.tick) := by simpa using h
            rw [this]
            exact hrt
        have hlaunchStep : ∀ t : Nat, t ∈ s.launches ++ [s.tick] →
            t ∈ s.launches ∨ env.runningAt t = true := by
          intro t ht
          rcases List.mem_append.mp ht with h | h
          · exact Or.inl h
          · right
            have : t = s.tick := by simpa using h
            rw [this]
            exact hrt
        by_cases hub : cfg.use_browser
        · rw [if_pos hub]
          dsimp only
          cases hbo : env.browserOp s.tick with
          | some html =>
            dsimp only
            exact ⟨fun g hg => Or.inl hg, fun t ht => hlaunchStep t ht⟩
          | none =>
            dsimp only
            by_cases hlt : attempt < cfg.retries
            · rw [if_pos hlt]
              refine ⟨fun g hg => ?_, fun t ht => ?_⟩
              · rcases (ih url (attempt + 1) _).1 g hg with h | h
                · exact Or.inl h
                · exact Or.inr h
              · rcases (ih url (attempt + 1) _).2 t ht with h | h
                · exact hlaunchStep t h
                · exact Or.inr h
            · rw [if_neg hlt]
              exact ⟨fun g hg => Or.inl hg, fun t ht => hlaunchStep t ht⟩
        · rw [if_neg hub]
          dsimp only
          cases hga : env.get s.tick with
          | success r =>
            dsimp only
            by_cases hst : r.status ∈ redirectCodes
            · rw [if_pos hst]
              cases hloc : r.location with
              | none =>
                dsimp only
                exact ⟨fun g hg => hgetsStep g hg, fun t ht => Or.inl ht⟩
              | some loc =>
                dsimp only
                refine ⟨fun g hg => ?_, fun t ht => ?_⟩
                · rcases (ih (env.join url loc) attempt _).1 g hg with h | h
                  · exact hgetsStep g h
                  · exact Or.inr h
                · rcases (ih (env.join url loc) attempt _).2 t ht with h | h
                  · exact Or.inl h
                  · exact Or.inr h
            · rw [if_neg hst]
              by_cases h200 : r.status ≠ 200
              · rw [if_pos h200]
                exact ⟨fun g hg => hgetsStep g hg, fun t ht => Or.inl ht⟩
              · rw [if_neg h200]
                exact ⟨fun g hg => hgetsStep g hg, fun t ht => Or.inl ht⟩
          | netErr =>
            dsimp only
            refine ⟨fun g hg => ?_, fun t ht => ?_⟩
            · rcases (ih url (attempt + 1) _).1 g hg with h | h
              · exact hgetsStep g h
              · exact Or.inr h
            · rcases (ih url (attempt + 1) _).2 t ht with h | h
              · exact Or.inl h
              · exact Or.inr h
          | otherErr =>
            dsimp only
            by_cases hlt : attempt < cfg.retries
            · rw [if_pos hlt]
              refine ⟨fun g hg => ?_, fun t ht => ?_⟩
              · rcases (ih url (attempt + 1) _).1 g hg with h | h
                · exact hgetsStep g h
                · exact Or.inr h
              · rcases (ih url (attempt + 1) _).2 t ht with h | h
                · exact Or.inl h
                · exact Or.inr h
            · rw [if_neg hlt]
              exact ⟨fun g hg => hgetsStep g hg, fun t ht => Or.inl ht⟩

/-- `_crawl_page` returns without effect when the stop flag is down at
entry (line 139). -/
theorem crawlPage_stopped (env : Env) (cfg : Config) (fuel : Nat) (url : String)
    (dep : Nat) (s : State) (h : env.runningAt s.tick = false) :
    crawlPage env cfg fuel url dep s = s := by
  cases fuel with
  | zero => rfl
  | succ f =>
    unfold crawlPage
    rw [if_pos (Or.inl h)]

/-- `_download_asset` returns without effect when the stop flag is down at
entry (line 221). -/
theorem downloadAsset_stopped (env : Env) (cfg : Config) (url : String) (s : State)
    (h : env.runningAt s.tick = false) : downloadAsset env cfg url s = s := by
  unfold downloadAsset
  rw [if_pos h]

/-- Concrete environment whose stop flag is up only at time 0 (the flag is
cleared during the first network operation). -/
def envStop : Env :=
  ⟨fun t => t == 0, fun _ => GetResult.netErr, fun _ => none,
   fun _ => ⟨[], []⟩, fun _ => [], fun _ u => u, fun _ => true,
   fun _ => none, fun _ => none⟩

/-- C6 counterexample: the retry loop of `_download_asset` contains no
check of the stop flag, so after the flag is cleared at time 1 the loop
still starts fresh GETs at times 2 and 4 — the pending asset-download
branch does not return early at any check point, because its retry
iterations have none. -/
theorem claim6_stop_cex :
    (downloadAsset envStop cfgR3 "u" initState).gets =
      [("u", 0), ("u", 2), ("u", 4)] ∧
    envStop.runningAt 2 = false ∧ envStop.runningAt 4 = false := by
  decide

/-- C6 (amended): the stop flag is sampled at the top of every page-crawl
step, every redirect/retry step of the page fetcher, and at asset-download
entry — so every GET or browser launch of the page fetcher starts at a
time where the flag was up, and a page crawl or asset download entered
with the flag down returns with no effect — but the asset retry loop
itself has no check point, so an asset download already past its entry
check may keep starting new fetches after the flag is cleared. -/
theorem claim6_stop_amended :
    (∀ (env : Env) (cfg : Config) fuel url attempt s,
      ∀ g ∈ (fetchWithRedirects env cfg fuel url attempt s).2.2.gets,
        g ∈ s.gets ∨ env.runningAt g.2 = true) ∧
    (∀ (env : Env) (cfg : Config) fuel url attempt s,
      ∀ t ∈ (fetchWithRedirects env cfg fuel url attempt s).2.2.launches,
        t ∈ s.launches ∨ env.runningAt t = true) ∧
    (∀ (env : Env) (cfg : Config) fuel url dep s, env.runningAt s.tick = false →
      crawlPage env cfg fuel url dep s = s) ∧
    (∀ (env : Env) (cfg : Config) url s, env.runningAt s.tick = false →
      downloadAsset env cfg url s = s) :=
  ⟨fun env cfg fuel url attempt s => (fetchWR_flag env cfg fuel url attempt s).1,
   fun env cfg fuel url attempt s => (fetchWR_flag env cfg fuel url attempt s).2,
   fun env cfg fuel url dep s h => crawlPage_stopped env cfg fuel url dep s h,
   fun env cfg url s h => downloadAsset_stopped env cfg url s h⟩

/-- Witness for `claim6_stop_amended`: a GET of the transiently failing
page fetch starts at time 0, where the flag is up; and a crawl or asset
download entered at time 1, where `envStop`'s flag is down, is a no-op. -/
theorem claim6_stop_amended_witness :
    (("u", 0) ∈ (fetchWithRedirects envStop cfgR3 10 "u" 1 initState).2.2.gets →
      ("u", 0) ∈ initState.gets ∨ envStop.runningAt 0 = true) ∧
    crawlPage envStop cfgR3 5 "u" 0 { initState with tick := 1 } =
      { initState with tick := 1 } ∧
    downloadAsset envStop cfgR3 "u" { initState with tick := 1 } =
      { initState with tick := 1 } :=
  ⟨fun hmem => claim6_stop_amended.1 envStop cfgR3 10 "u" 1 initState ("u", 0) hmem,
   claim6_stop_amended.2.2.1 envStop cfgR3 5 "u" 0 _ (by decide),
   claim6_stop_amended.2.2.2 envStop cfgR3 "u" _ (by decide)⟩

/-! ## Claim C7: headless-browser mode -/

/-- A headless-browser-mode configuration with three retries. -/
def cfgB3 : Config := ⟨2, 3, "h", true, 10⟩

/-- Concrete environment whose browser operations always raise. -/
def envBfail : Env :=
  ⟨fun _ => true, fun _ => GetResult.netErr, fun _ => none,
   fun _ => ⟨[], []⟩, fun _ => [], fun _ u => u, fun _ => true,
   fun _ => none, fun _ => none⟩

/-- Concrete environment whose browser operations always succeed. -/
def envBok : Env :=
  ⟨fun _ => true, fun _ => GetResult.netErr, fun _ => some "html",
   fun _ => ⟨[], []⟩, fun _ => [], fun _ u => u, fun _ => true,
   fun _ => none, fun _ => none⟩

/-- C7 counterexample: in browser mode with every browser operation
raising, the generic `except Exception` handler of lines 212-217 sleeps
`2^attempt` and retries with `attempt + 1`: three browsers are launched
(at times 0, 2, 4), none is torn down, and two backoff sleeps occur —
contradicting "no retry or backoff: a browser-mode fetch never sleeps and
never increments the attempt counter" (and the teardown-before-returning
part fails on this path as well). -/
theorem claim7_browser_cex :
    (fetchWithRedirects envBfail cfgB3 10 "u" 1 initState).2.2.launches = [0, 2, 4] ∧
    (fetchWithRedirects envBfail cfgB3 10 "u" 1 initState).2.2.closes = [] ∧
    (fetchWithRedirects envBfail cfgB3 10 "u" 1 initState).2.2.sleeps = [(2, 1), (4, 3)] ∧
    (fetchWithRedirects envBfail cfgB3 10 "u" 1 initState).2.2.sleeps ≠ [] := by
  decide

/-- C7 (amended): in browser mode the fetcher never performs an HTTP GET
and never writes a RedirectMap entry (in any outcome); a fetch whose
browser operation succeeds launches one fresh browser instance, tears it
down before returning, returns the rendered HTML, and neither sleeps nor
recurses — but a raised browser operation falls into the generic exception
handler, which sleeps `2^attempt` and retries with `attempt + 1` while
`attempt < retries`, and skips the teardown. -/
theorem claim7_browser_amended :
    (∀ (env : Env) (cfg : Config) fuel url attempt s, cfg.use_browser = true →
      (fetchWithRedirects env cfg fuel url attempt s).2.2.redirects = s.redirects ∧
      (fetchWithRedirects env cfg fuel url attempt s).2.2.gets = s.gets) ∧
    (∀ (env : Env) (cfg : Config) fuel url attempt s (html : String),
      cfg.use_browser = true → env.runningAt s.tick = true → attempt ≤ cfg.retries →
      env.browserOp s.tick = some html →
      fetchWithRedirects env cfg (fuel + 1) url attempt s =
        (url, some html,
          { s with tick := s.tick + 1, launches := s.launches ++ [s.tick],
                   closes := s.closes ++ [s.tick] })) := by
  constructor
  · intro env cfg
    intro fuel
    induction fuel with
    | zero => intro url attempt s _; exact ⟨rfl, rfl⟩
    | succ f ih =>
      intro url attempt s hub
      unfold fetchWithRedirects
      by_cases hr : env.runningAt s.tick = false
      · rw [if_pos hr]; exact ⟨rfl, rfl⟩
      · rw [if_neg hr]
        by_cases hatt : cfg.retries < attempt
        · rw [if_pos hatt]; exact ⟨rfl, rfl⟩
        · rw [if_neg hatt, if_pos (by rw [hub] : cfg.use_browser = true)]
          dsimp only
          cases hbo : env.browserOp s.tick with
          | some html => exact ⟨rfl, rfl⟩
          | none =>
            dsimp only
            by_cases hlt : attempt < cfg.retries
            · rw [if_pos hlt]
              exact ih url (attempt + 1) _ hub
            · rw [if_neg hlt]; exact ⟨rfl, rfl⟩
  · intro env cfg fuel url attempt s html hub hr hatt hbo
    unfold fetchWithRedirects
    rw [hr]
    rw [if_neg (by simp)]
    rw [if_neg (by omega : ¬ cfg.retries < attempt)]
    rw [if_pos (by rw [hub] : cfg.use_browser = true)]
    dsimp only
    rw [hbo]

/-- Witness for `claim7_browser_amended`: a successful browser-mode fetch
at time 0 returns the rendered HTML with one launch and one teardown. -/
theorem claim7_browser_amended_witness :
    ((fetchWithRedirects envBok cfgB3 10 "u" 1 initState).2.2.redirects =
      initState.redirects) ∧
    fetchWithRedirects envBok cfgB3 10 "u" 1 initState =
      ("u", some "html",
        { initState with tick := 1, launches := [0], closes := [0] }) :=
  ⟨(claim7_browser_amended.1 envBok cfgB3 10 "u" 1 initState rfl).1,
   by
    have h := claim7_browser_amended.2 envBok cfgB3 9 "u" 1 initState "html" rfl rfl
      (by decide) rfl
    rw [show (10 : Nat) = 9 + 1 from rfl]
    rw [h]
    decide⟩

/-! ## Claim C3: redirect-chain resolution -/

/-- One redirect hop (lines 195-203): resolve the `Location` header against
the hop's URL, record the hop in the redirect map, and recurse on the new
URL with the attempt counter unchanged and no sleep. -/
theorem fetchWR_redirect_step (env : Env) (cfg : Config) (hb : cfg.use_browser = false)
    (u : String) (attempt fuel : Nat) (s : State)
    (hrun : env.runningAt s.tick = true) (hatt : attempt ≤ cfg.retries)
    (r : HttpResp) (hg : env.get s.tick = GetResult.success r)
    (hst : r.status ∈ redirectCodes) (loc : String) (hl : r.location = some loc) :
    fetchWithRedirects env cfg (fuel + 1) u attempt s =
      fetchWithRedirects env cfg fuel (env.join u loc) attempt
        { s with tick := s.tick + 1, gets := s.gets ++ [(u, s.tick)],
                 redirects := dictSet s.redirects u (env.join u loc) } := by
  conv_lhs => unfold fetchWithRedirects
  rw [hrun]
  rw [if_neg (by simp)]
  rw [if_neg (by omega : ¬ cfg.retries < attempt)]
  rw [if_neg (by simp [hb])]
  dsimp only
  rw [hg]
  dsimp only
  rw [if_pos hst, hl]

/-- A 200 response ends the resolution and returns the body (line 207). -/
theorem fetchWR_ok_step (env : Env) (cfg : Config) (hb : cfg.use_browser = false)
    (u : String) (attempt fuel : Nat) (s : State)
    (hrun : env.runningAt s.tick = true) (hatt : attempt ≤ cfg.retries)
    (r : HttpResp) (hg : env.get s.tick = GetResult.success r) (hst : r.status = 200) :
    fetchWithRedirects env cfg (fuel + 1) u attempt s =
      (u, some r.body, { s with tick := s.tick + 1, gets := s.gets ++ [(u, s.tick)] }) := by
  unfold fetchWithRedirects
  rw [hrun]
  rw [if_neg (by simp)]
  rw [if_neg (by omega : ¬ cfg.retries < attempt)]
  rw [if_neg (by simp [hb])]
  dsimp only
  rw [hg]
  dsimp only
  rw [if_neg (by rw [hst]; decide), if_neg (by rw [hst]; simp)]

/-- A redirect status without a `Location` header fails the URL
immediately, with no retry, no sleep and no redirect-map entry
(lines 196-199). -/
theorem fetchWR_noloc_step (env : Env) (cfg : Config) (hb : cfg.use_browser = false)
    (u : String) (attempt fuel : Nat) (s : State)
    (hrun : env.runningAt s.tick = true) (hatt : attempt ≤ cfg.retries)
    (r : HttpResp) (hg : env.get s.tick = GetResult.success r)
    (hst : r.status ∈ redirectCodes) (hl : r.location = none) :
    fetchWithRedirects env cfg (fuel + 1) u attempt s =
      (u, none, { s with tick := s.tick + 1, gets := s.gets ++ [(u, s.tick)] }) := by
  unfold fetchWithRedirects
  rw [hrun]
  rw [if_neg (by simp)]
  rw [if_neg (by omega : ¬ cfg.retries < attempt)]
  rw [if_neg (by simp [hb])]
  dsimp only
  rw [hg]
  dsimp only
  rw [if_pos hst, hl]

/-- C3: a redirect chain `A → B → C → 200` resolved from the initial state
records exactly one redirect-map entry per hop (`A ↦ B`, `B ↦ C`), performs
one GET per hop with no sleep in between, returns `C` with the 200 body,
and works for any retry budget `retries ≥ 1` with the attempt counter still
at 1 throughout (redirects consume no retry budget); and a redirect status
carrying no `Location` header fails immediately: one GET, no sleep, no
retry, no redirect-map entry. -/
theorem claim3_redirect_chain (env : Env) (cfg : Config)
    (hb : cfg.use_browser = false) (hr : 1 ≤ cfg.retries)
    (A B C locB locC : String) (rA rB rC : HttpResp)
    (hAB : A ≠ B)
    (hrun0 : env.runningAt 0 = true) (hrun1 : env.runningAt 1 = true)
    (hrun2 : env.runningAt 2 = true)
    (hgA : env.get 0 = GetResult.success rA) (hstA : rA.status ∈ redirectCodes)
    (hlA : rA.location = some locB) (hjA : env.join A locB = B)
    (hgB : env.get 1 = GetResult.success rB) (hstB : rB.status ∈ redirectCodes)
    (hlB : rB.location = some locC) (hjB : env.join B locC = C)
    (hgC : env.get 2 = GetResult.success rC) (hstC : rC.status = 200) :
    (fetchWithRedirects env cfg 3 A 1 initState =
      (C, some rC.body,
        { initState with
          tick := 3,
          gets := [(A, 0), (B, 1), (C, 2)],
          redirects := [(A, B), (B, C)] })) ∧
    (∀ (env2 : Env) (u : String) (r2 : HttpResp) (s : State) (fuel : Nat),
      env2.runningAt s.tick = true → env2.get s.tick = GetResult.success r2 →
      r2.status ∈ redirectCodes → r2.location = none →
      fetchWithRedirects env2 cfg (fuel + 1) u 1 s =
        (u, none, { s with tick := s.tick + 1, gets := s.gets ++ [(u, s.tick)] })) := by
  constructor
  · rw [show (3 : Nat) = 2 + 1 from rfl,
        fetchWR_redirect_step env cfg hb A 1 2 initState (by exact hrun0) hr rA hgA hstA
          locB hlA]
    rw [hjA]
    rw [show (2 : Nat) = 1 + 1 from rfl,
        fetchWR_redirect_step env cfg hb B 1 1 _ (by exact hrun1) hr rB hgB hstB locC hlB]
    rw [hjB]
    rw [show (1 : Nat) = 0 + 1 from rfl,
        fetchWR_ok_step env cfg hb C 1 0 _ (by exact hrun2) hr rC hgC hstC]
    refine Prod.ext rfl (Prod.ext rfl ?_)
    apply State.ext <;> simp [initState, dictSet, hAB]
  · intro env2 u r2 s fuel hrun hg hst hl
    exact fetchWR_noloc_step env2 cfg hb u 1 fuel s hrun hr r2 hg hst hl

/-- Concrete environment realizing the redirect chain
`A --301--> B --302--> C --200--> body`. -/
def envChain : Env :=
  ⟨fun _ => true,
   fun t =>
     if t = 0 then GetResult.success ⟨301, some "B", "", ""⟩
     else if t = 1 then GetResult.success ⟨302, some "C", "", ""⟩
     else GetResult.success ⟨200, none, "text/html", "body"⟩,
   fun _ => none, fun _ => ⟨[], []⟩, fun _ => [], fun _ u => u, fun _ => true,
   fun _ => none, fun _ => none⟩

/-- Witness for `claim3_redirect_chain` on the concrete chain. -/
theorem claim3_redirect_chain_witness :
    (("A" : String) ≠ "B" ∧
      envChain.get 0 = GetResult.success ⟨301, some "B", "", ""⟩ ∧
      (301 : Nat) ∈ redirectCodes ∧ envChain.join "A" "B" = "B") ∧
    fetchWithRedirects envChain cfgR3 3 "A" 1 initState =
      ("C", some "body",
        { initState with
          tick := 3,
          gets := [("A", 0), ("B", 1), ("C", 2)],
          redirects := [("A", "B"), ("B", "C")] }) :=
  ⟨⟨by decide, rfl, by decide, rfl⟩,
   (claim3_redirect_chain envChain cfgR3 rfl (by decide) "A" "B" "C" "B" "C"
      ⟨301, some "B", "", ""⟩ ⟨302, some "C", "", ""⟩ ⟨200, none, "text/html", "body"⟩
      (by decide) rfl rfl rfl rfl (by decide) rfl rfl rfl (by decide) rfl rfl rfl rfl).1⟩

/-! ## Claim C8: URL rewriting -/

/-- `pyReplaceCore` on the empty list is empty at any fuel. -/
theorem pyReplaceCore_nil (pat rep : List Char) (n : Nat) :
    pyReplaceCore pat rep n [] = [] := by
  cases n <;> rfl

/-- `pyReplaceCore` walks past a position where the pattern does not
match. -/
theorem pyReplaceCore_skip (pat rep : List Char) (n : Nat) (c : Char) (l : List Char)
    (h : ¬ pat <+: c :: l) :
    pyReplaceCore pat rep (n + 1) (c :: l) = c :: pyReplaceCore pat rep n l := by
  conv_lhs => unfold pyReplaceCore
  rw [if_neg (by rw [List.isPrefixOf_iff_prefix]; exact h)]

/-- `pyReplaceCore` replaces at a position where the pattern matches. -/
theorem pyReplaceCore_hit (p : Char) (pt rep : List Char) (n : Nat) (l : List Char) :
    pyReplaceCore (p :: pt) rep (n + 1) ((p :: pt) ++ l) =
      rep ++ pyReplaceCore (p :: pt) rep n l := by
  conv_lhs => unfold pyReplaceCore
  rw [List.cons_append]
  dsimp only
  rw [if_pos (by
    rw [List.isPrefixOf_iff_prefix, show p :: (pt ++ l) = (p :: pt) ++ l from rfl]
    exact List.prefix_append _ _)]
  simp only [List.length_cons, Nat.add_sub_cancel]
  rw [List.drop_left]

/-- The captured value `v` (non-empty, quote-free, not occurring in the
attribute prefix) cannot match at any position inside
`attr ++ quote :: rest`: an occurrence would either lie inside `attr` or
cover the quote character. -/
theorem not_prefix_attr (v attr rest : List Char) (q : Char)
    (hq : q ∉ v) (hinf : ¬ v <:+: attr) : ¬ v <+: attr ++ q :: rest := by
  intro hp
  by_cases hlen : v.length ≤ attr.length
  · have hattr : attr <+: attr ++ q :: rest := List.prefix_append _ _
    have : v <+: attr := List.prefix_of_prefix_length_le hp hattr hlen
    exact hinf this.isInfix
  · have hq1 : attr ++ [q] <+: attr ++ q :: rest := by
      have h := List.prefix_append (attr ++ [q]) rest
      rw [List.append_assoc] at h
      exact h
    have hlen2 : (attr ++ [q]).length ≤ v.length := by
      simp only [List.length_append, List.length_singleton]
      omega
    have : attr ++ [q] <+: v := List.prefix_of_prefix_length_le hq1 hp hlen2
    exact hq (this.subset (by simp))

/-- Core of the amended C8: Python's `str.replace` on the matched text
`attr ++ q :: v ++ [q]` with pattern `v` replaces exactly the value —
provided `v` is non-empty, quote-free and not a substring of the attribute
prefix. -/
theorem pyReplaceCore_attr (v new : List Char) (q : Char) (hv : v ≠ []) (hq : q ∉ v) :
    ∀ (attr : List Char) (fuel : Nat), ¬ v <:+: attr → attr.length + 3 ≤ fuel →
      pyReplaceCore v new fuel (attr ++ q :: (v ++ [q])) =
        attr ++ q :: (new ++ [q]) := by
  intro attr
  induction attr with
  | nil =>
    intro fuel hinf hfuel
    obtain ⟨f1, rfl⟩ : ∃ f1, fuel = f1 + 1 := ⟨fuel - 1, by omega⟩
    simp only [List.nil_append]
    rw [pyReplaceCore_skip v new f1 q _ (by
      intro hp
      rcases hp with ⟨t, ht⟩
      cases v with
      | nil => exact hv rfl
      | cons c cs =>
        have : c = q := by
          have := congrArg (fun l => l.head?) ht
          simpa using this
        exact hq (by rw [this]; exact List.mem_cons_self _ _))]
    obtain ⟨f2, rfl⟩ : ∃ f2, f1 = f2 + 1 := ⟨f1 - 1, by omega⟩
    obtain ⟨c, cs, rfl⟩ : ∃ c cs, v = c :: cs := by
      cases v with
      | nil => exact absurd rfl hv
      | cons c cs => exact ⟨c, cs, rfl⟩
    rw [show (c :: cs) ++ [q] = (c :: cs) ++ [q] from rfl, pyReplaceCore_hit c cs new f2 [q]]
    obtain ⟨f3, rfl⟩ : ∃ f3, f2 = f3 + 1 := ⟨f2 - 1, by omega⟩
    rw [pyReplaceCore_skip _ new f3 q [] (by
      intro hp
      have : c = q := by
        rcases hp with ⟨t, ht⟩
        have := congrArg (fun l => l.head?) ht
        simpa using this
      exact hq (by rw [this]; exact List.mem_cons_self _ _))]
    rw [pyReplaceCore_nil]
  | cons a as ih =>
    intro fuel hinf hfuel
    obtain ⟨f1, rfl⟩ : ∃ f1, fuel = f1 + 1 := ⟨fuel - 1, by omega⟩
    rw [List.cons_append]
    rw [pyReplaceCore_skip v new f1 a _ (fun hp =>
      not_prefix_attr v (a :: as) (v ++ [q]) q hq hinf (by rw [List.cons_append]; exact hp))]
    have hf1 : as.length + 3 ≤ f1 := by
      simp only [List.length_cons] at hfuel
      omega
    rw [ih f1 (fun h => hinf (List.infix_cons h)) hf1]
    rw [List.cons_append]

/-- `takeUntilChar` splits a quote-free span at the closing quote. -/
theorem takeUntilChar_append (q : Char) (v rest : List Char) (hq : q ∉ v) :
    takeUntilChar q (v ++ q :: rest) = some (v, rest) := by
  induction v with
  | nil => simp [takeUntilChar]
  | cons c cs ih =>
    have hc : ¬ c = q := fun h => hq (by rw [h]; exact List.mem_cons_self _ _)
    have hcs : q ∉ cs := fun h => hq (List.mem_cons_of_mem _ h)
    simp only [List.cons_append, takeUntilChar, if_neg hc, List.append_eq, ih hcs]
    rfl

/-- `subAttrPass` on the empty list. -/
theorem subAttrPass_nil (join : String → String → String) (base : String) (q : Char)
    (n : Nat) : subAttrPass join base q n [] = some [] := by
  cases n <;> rfl

/-- A pass whose input is exactly one successful match is that match's
replacement. -/
theorem subAttrPass_head_match (join : String → String → String) (base : String)
    (q : Char) (n : Nat) (l m vv rep : List Char) (hl : l ≠ [])
    (hm : tryMatchAttr q l = some (m, vv, []))
    (hrep : replaceUrl join base m vv = some rep) :
    subAttrPass join base q (n + 1) l = some rep := by
  obtain ⟨c, cs, rfl⟩ := List.exists_cons_of_ne_nil hl
  conv_lhs => unfold subAttrPass
  rw [hm]
  dsimp only
  rw [hrep, subAttrPass_nil]
  simp

/-- A pass of the rewriter leaves a text containing no quote character of
its kind unchanged. -/
theorem subAttrPass_no_quote (join : String → String → String) (base : String)
    (q : Char) : ∀ (n : Nat) (l : List Char), q ∉ l →
      subAttrPass join base q n l = some l := by
  intro n
  induction n with
  | zero => intro l _; rfl
  | succ m ih =>
    intro l hql
    cases l with
    | nil => rfl
    | cons c rest =>
      have hnomatch : tryMatchAttr q (c :: rest) = none := by
        unfold tryMatchAttr
        rw [if_neg, if_neg]
        · intro hpre
          rw [List.isPrefixOf_iff_prefix] at hpre
          exact hql (hpre.subset (by simp))
        · intro hpre
          rw [List.isPrefixOf_iff_prefix] at hpre
          exact hql (hpre.subset (by simp))
      unfold subAttrPass
      rw [hnomatch]
      dsimp only
      rw [ih rest (fun h => hql (List.mem_cons_of_mem _ h))]
      rfl

/-- Modelled from the claim's wording: the root-relative local path that
C8 says every attribute value is replaced with — `'/'` followed by the
path of the resolved absolute URL with its leading slash stripped,
defaulting to `index.html` when that path is empty. -/
def localPath (join : String → String → String) (base v : String) : String :=
  let p := lstripSlash (urlsplit (join base v)).path
  "/" ++ (if p = "" then "index.html" else p)

/-- Concrete `urljoin` collaborator for the counterexample, mirroring
`urljoin(base, "") = base` and `urljoin(base, abs) = abs` for the inputs
used. -/
def joinCE : String → String → String := fun b u => if u = "" then b else u

/-- C8 counterexample.  First: an empty attribute value (`href=""`) makes
`match.group(2)` raise `IndexError` inside the replacement callback, so the
whole pass is aborted and the text is returned unchanged — not rewritten to
`href="/p"` as the claim requires.  Second: a value that also occurs inside
the matched text's `href=` prefix (value `f`) is replaced at every
occurrence by `str.replace`, garbling the attribute name: `href="f"`
becomes `hre/f="/f"`, not `href="/f"`. -/
theorem claim8_rewrite_cex :
    rewriteUrls joinCE "href=\"\"" "http://h/p" = "href=\"\"" ∧
    ("href=\"\"" : String) ≠ "href=\"/p\"" ∧
    rewriteUrls joinCE "href=\"f\"" "http://h/p" = "hre/f=\"/f\"" ∧
    ("hre/f=\"/f\"" : String) ≠ "href=\"/f\"" := by
  decide

/-- C8 (amended): for every base URL and every attribute value `v` that is
non-empty, contains no quote of either kind, does not occur inside the
attribute prefix (`href=` resp. `src=`), and whose replacement path
contains no single quote, the rewriter replaces exactly the value of the
double-quoted attribute with the root-relative local path (`'/'` + the
resolved URL's path with leading slash stripped, `index.html` when empty)
and leaves the rest of the matched text unchanged. -/
theorem claim8_rewrite_amended (join : String → String → String) (base v : String)
    (hv : v.data ≠ []) (hdq : dquote ∉ v.data)
    (hsq2 : squote ∉ (localPath join base v).data)
    (hinfH : ¬ v.data <:+: "href=".data) (hinfS : ¬ v.data <:+: "src=".data) :
    rewriteUrls join ⟨"href=".data ++ dquote :: (v.data ++ [dquote])⟩ base =
      ⟨"href=".data ++ dquote :: ((localPath join base v).data ++ [dquote])⟩ ∧
    rewriteUrls join ⟨"src=".data ++ dquote :: (v.data ++ [dquote])⟩ base =
      ⟨"src=".data ++ dquote :: ((localPath join base v).data ++ [dquote])⟩ := by
  have hdq' : dquote ≠ squote := by decide
  have core : ∀ (attr : List Char), ¬ v.data <:+: attr → attr ≠ [] →
      pyReplace ⟨attr ++ dquote :: (v.data ++ [dquote])⟩ v ("/" ++
        (if lstripSlash (urlsplit (join base v)).path = "" then "index.html"
         else lstripSlash (urlsplit (join base v)).path)) =
      ⟨attr ++ dquote :: ((localPath join base v).data ++ [dquote])⟩ := by
    intro attr hinf hattr
    have hvl : 0 < v.data.length := List.length_pos.mpr hv
    unfold pyReplace
    rw [if_neg (by simpa using hv)]
    rw [pyReplaceCore_attr v.data _ dquote hv hdq attr _ hinf (by
      simp only [List.length_append, List.length_cons, List.length_singleton]
      omega)]
    rfl
  have hvempty : ¬ v.data.isEmpty = true := by
    simp only [List.isEmpty_iff]
    exact hv
  have hrepl : ∀ (attr : List Char), ¬ v.data <:+: attr → attr ≠ [] →
      replaceUrl join base (attr ++ dquote :: (v.data ++ [dquote])) v.data =
        some (attr ++ dquote :: ((localPath join base v).data ++ [dquote])) := by
    intro attr hinf hattr
    unfold replaceUrl
    rw [if_neg hvempty]
    dsimp only
    rw [show (⟨v.data⟩ : String) = v from rfl]
    rw [core attr hinf hattr]
  have hout : ∀ (attr : List Char), squote ∉ attr →
      squote ∉ attr ++ dquote :: ((localPath join base v).data ++ [dquote]) := by
    intro attr hqa h
    rcases List.mem_append.mp h with h | h
    · exact hqa h
    · rcases List.mem_cons.mp h with h | h
      · exact absurd h.symm (by decide)
      · rcases List.mem_append.mp h with h | h
        · exact hsq2 h
        · have : squote = dquote := by simpa using h
          exact absurd this (by decide)
  constructor
  · -- href variant
    have hmatch : tryMatchAttr dquote ("href=".data ++ dquote :: (v.data ++ [dquote])) =
        some ((("href=".data ++ [dquote]) ++ v.data) ++ [dquote], v.data, []) := by
      rw [show "href=".data ++ dquote :: (v.data ++ [dquote]) =
        ("href=".data ++ [dquote]) ++ (v.data ++ [dquote]) from by simp]
      unfold tryMatchAttr
      rw [if_pos (by rw [List.isPrefixOf_iff_prefix]; exact List.prefix_append _ _)]
      dsimp only
      rw [List.drop_left]
      rw [show v.data ++ [dquote] = v.data ++ dquote :: [] from rfl,
          takeUntilChar_append dquote v.data [] hdq]
      rfl
    have hrep := hrepl "href=".data hinfH (by decide)
    rw [show "href=".data ++ dquote :: (v.data ++ [dquote]) =
      (("href=".data ++ [dquote]) ++ v.data) ++ [dquote] from by simp] at hrep
    unfold rewriteUrls
    dsimp only
    obtain ⟨n, hn⟩ : ∃ n, ("href=".data ++ dquote :: (v.data ++ [dquote])).length = n + 1 :=
      ⟨("href=".data ++ dquote :: (v.data ++ [dquote])).length - 1, by simp⟩
    rw [hn]
    rw [subAttrPass_head_match join base dquote n _ _ _ _ (by simp) hmatch hrep]
    dsimp only
    rw [subAttrPass_no_quote join base squote _ _
      (hout "href=".data (by decide))]
  · -- src variant
    have hmatch : tryMatchAttr dquote ("src=".data ++ dquote :: (v.data ++ [dquote])) =
        some ((("src=".data ++ [dquote]) ++ v.data) ++ [dquote], v.data, []) := by
      rw [show "src=".data ++ dquote :: (v.data ++ [dquote]) =
        ("src=".data ++ [dquote]) ++ (v.data ++ [dquote]) from by simp]
      unfold tryMatchAttr
      rw [if_neg (by
        intro h
        rw [List.isPrefixOf_iff_prefix] at h
        rw [show ("href=".data ++ [dquote]) = 'h' :: ("ref=".data ++ [dquote]) from rfl] at h
        rw [show ("src=".data ++ [dquote]) ++ (v.data ++ [dquote]) =
          's' :: (("rc=".data ++ [dquote]) ++ (v.data ++ [dquote])) from rfl] at h
        rw [List.cons_prefix_cons] at h
        exact absurd h.1 (by decide))]
      rw [if_pos (by rw [List.isPrefixOf_iff_prefix]; exact List.prefix_append _ _)]
      dsimp only
      rw [List.drop_left]
      rw [show v.data ++ [dquote] = v.data ++ dquote :: [] from rfl,
          takeUntilChar_append dquote v.data [] hdq]
      rfl
    have hrep := hrepl "src=".data hinfS (by decide)
    rw [show "src=".data ++ dquote :: (v.data ++ [dquote]) =
      (("src=".data ++ [dquote]) ++ v.data) ++ [dquote] from by simp] at hrep
    unfold rewriteUrls
    dsimp only
    obtain ⟨n, hn⟩ : ∃ n, ("src=".data ++ dquote :: (v.data ++ [dquote])).length = n + 1 :=
      ⟨("src=".data ++ dquote :: (v.data ++ [dquote])).length - 1, by simp⟩
    rw [hn]
    rw [subAttrPass_head_match join base dquote n _ _ _ _ (by simp) hmatch hrep]
    dsimp only
    rw [subAttrPass_no_quote join base squote _ _
      (hout "src=".data (by decide))]

/-- Witness for `claim8_rewrite_amended`: value `x` against base
`http://h/p` rewrites `href="x"` to `href="/x"`. -/
theorem claim8_rewrite_amended_witness :
    (("x" : String).data ≠ [] ∧ dquote ∉ ("x" : String).data ∧
      squote ∉ (localPath joinCE "http://h/p" "x").data ∧
      ¬ ("x" : String).data <:+: "href=".data ∧
      ¬ ("x" : String).data <:+: "src=".data) ∧
    rewriteUrls joinCE ⟨"href=".data ++ dquote :: (("x" : String).data ++ [dquote])⟩
        "http://h/p" =
      ⟨"href=".data ++ dquote :: ((localPath joinCE "http://h/p" "x").data ++ [dquote])⟩ :=
  ⟨⟨by decide, by decide, by decide, by decide, by decide⟩,
   (claim8_rewrite_amended joinCE "http://h/p" "x" (by decide) (by decide) (by decide)
      (by decide) (by decide)).1⟩

/-! ## Claim C10: frame of the JavaScript analysis -/

/-- Concrete environment serving a textual JavaScript asset whose content
contains a `src="…"` attribute pattern. -/
def envJs : Env :=
  ⟨fun _ => true,
   fun _ => GetResult.success
     ⟨200, none, "text/javascript", "a.src=\"http://h/q.js\""⟩,
   fun _ => none, fun _ => ⟨[], []⟩, fun _ => [], fun _ u => u, fun _ => true,
   fun _ => none, fun _ => none⟩

/-- C10 counterexample: the persisted content of a textual JavaScript
asset is not exactly the fetched content — `_save_file` passes textual
content through `_rewrite_urls` first (line 300), so the fetched body
`a.src="http://h/q.js"` is persisted as `a.src="/q.js"`. -/
theorem claim10_jsframe_cex :
    (downloadAsset envJs cfgR3 "http://h/s.js" initState).savedFiles =
      [⟨"http://h/s.js", "a.src=\"/q.js\"", ⟨"h", "js", "s.js", ".js"⟩⟩] ∧
    ("a.src=\"/q.js\"" : String) ≠ "a.src=\"http://h/q.js\"" := by
  decide

/-- C10 (amended): the JavaScript analysis step mutates only the
`api_endpoints` field — clock, logs, visited set, redirect map, sitemap,
saved files and every other report field are untouched, and the result is
identical for every outcome of the esprima parse (the variable-renaming
pass operates on a local value that is discarded); the persisted asset
content is fixed before the analysis runs: it is the URL-rewritten fetched
body (not the raw fetched body), regardless of the parse outcome. -/
theorem claim10_jsframe_amended :
    (∀ (env : Env) (content url : String) (s : State),
      (analyzeJs env content url s).tick = s.tick ∧
      (analyzeJs env content url s).visited = s.visited ∧
      (analyzeJs env content url s).sitemap = s.sitemap ∧
      (analyzeJs env content url s).redirects = s.redirects ∧
      (analyzeJs env content url s).pageFetches = s.pageFetches ∧
      (analyzeJs env content url s).assetFetches = s.assetFetches ∧
      (analyzeJs env content url s).gets = s.gets ∧
      (analyzeJs env content url s).sleeps = s.sleeps ∧
      (analyzeJs env content url s).launches = s.launches ∧
      (analyzeJs env content url s).closes = s.closes ∧
      (analyzeJs env content url s).savedFiles = s.savedFiles ∧
      (analyzeJs env content url s).analysis.keywords = s.analysis.keywords ∧
      (analyzeJs env content url s).analysis.metadata = s.analysis.metadata ∧
      (analyzeJs env content url s).analysis.hidden_elements = s.analysis.hidden_elements ∧
      (analyzeJs env content url s).analysis.inline_scripts = s.analysis.inline_scripts ∧
      (analyzeJs env content url s).analysis.frontend_frameworks =
        s.analysis.frontend_frameworks ∧
      s.analysis.api_endpoints <+: (analyzeJs env content url s).analysis.api_endpoints) ∧
    (∀ (env : Env) (p : String → Option Unit) (content url : String) (s : State),
      analyzeJs { env with jsParse := p } content url s = analyzeJs env content url s) ∧
    (∀ (env : Env) (cfg : Config) (u : String) (s : State) (r : HttpResp),
      env.runningAt s.tick = true → u ∉ s.visited → env.filterUrl u = true →
      1 ≤ cfg.retries → env.get s.tick = GetResult.success r → r.status = 200 →
      strContains (strLower r.contentType) "text" = true →
      (downloadAsset env cfg u s).savedFiles =
        s.savedFiles ++
          [⟨u, rewriteUrls env.join r.body u, savePlan u (strLower r.contentType)⟩]) := by
  refine ⟨?_, ?_, ?_⟩
  · intro env content url s
    unfold analyzeJs
    cases env.jsParse content <;>
      exact ⟨rfl, rfl, rfl, rfl, rfl, rfl, rfl, rfl, rfl, rfl, rfl, rfl, rfl, rfl, rfl, rfl,
        List.prefix_append _ _⟩
  · intro env p content url s
    unfold analyzeJs
    dsimp only
    cases p content <;> cases env.jsParse content <;> rfl
  · intro env cfg u s r hrun hv hf hr hget hst hct
    unfold downloadAsset
    rw [hrun]
    rw [if_neg (by simp)]
    rw [if_neg (by simp [hv, hf])]
    rw [assetAttemptList_eq_range']
    obtain ⟨m, hm⟩ : ∃ m, cfg.retries = m + 1 := ⟨cfg.retries - 1, by omega⟩
    rw [hm, List.range'_succ 1 m 1]
    unfold assetLoop
    dsimp only
    rw [hget]
    dsimp only
    rw [if_pos hst]
    have hbin : (!strContains (strLower r.contentType) "text" &&
        !strContains (strLower r.contentType) "html") = false := by
      rw [hct]
      rfl
    rw [hbin]
    by_cases hjs : (strContains (strLower r.contentType) "javascript" && !false) = true
    · rw [if_pos hjs]
      have hframe : ∀ (env' : Env) (content' url' : String) (s' : State),
          (analyzeJs env' content' url' s').savedFiles = s'.savedFiles := by
        intro env' content' url' s'
        unfold analyzeJs
        cases env'.jsParse content' <;> rfl
      rw [hframe]
      rfl
    · rw [if_neg hjs]
      rfl

/-- Witness for `claim10_jsframe_amended` on the concrete JavaScript
asset environment. -/
theorem claim10_jsframe_amended_witness :
    ((analyzeJs envJs "a.src=\"http://h/q.js\"" "http://h/s.js" initState).savedFiles =
      initState.savedFiles) ∧
    analyzeJs { envJs with jsParse := fun _ => some () } "x" "u" initState =
      analyzeJs envJs "x" "u" initState ∧
    (downloadAsset envJs cfgR3 "http://h/s.js" initState).savedFiles =
      initState.savedFiles ++
        [⟨"http://h/s.js",
          rewriteUrls envJs.join "a.src=\"http://h/q.js\"" "http://h/s.js",
          savePlan "http://h/s.js" (strLower "text/javascript")⟩] :=
  ⟨(claim10_jsframe_amended.1 envJs "a.src=\"http://h/q.js\"" "http://h/s.js"
      initState).2.2.2.2.2.2.2.2.2.2.1,
   claim10_jsframe_amended.2.1 envJs (fun _ => some ()) "x" "u" initState,
   claim10_jsframe_amended.2.2 envJs cfgR3 "http://h/s.js" initState
     ⟨200, none, "text/javascript", "a.src=\"http://h/q.js\""⟩
     rfl (by decide) rfl (by decide) rfl rfl (by decide)⟩

/-! ## Claims C1 and C2: visited-set gating and the depth bound -/

/-- The four session fields governed by the C1 invariant are untouched by
a state transition. -/
def Frame4 (s s' : State) : Prop :=
  s'.visited = s.visited ∧ s'.sitemap = s.sitemap ∧
  s'.pageFetches = s.pageFetches ∧ s'.assetFetches = s.assetFetches

theorem frame4_id (s : State) : Frame4 s s := ⟨rfl, rfl, rfl, rfl⟩

theorem frame4_trans {s1 s2 s3 : State} (h1 : Frame4 s1 s2) (h2 : Frame4 s2 s3) :
    Frame4 s1 s3 :=
  ⟨h2.1.trans h1.1, h2.2.1.trans h1.2.1, h2.2.2.1.trans h1.2.2.1, h2.2.2.2.trans h1.2.2.2⟩

/-- `_fetch_with_redirects` never touches the visited set, the sitemap or
the fetch logs. -/
theorem fetchWR_frame (env : Env) (cfg : Config) :
    ∀ fuel url attempt s, Frame4 s (fetchWithRedirects env cfg fuel url attempt s).2.2 := by
  intro fuel
  induction fuel with
  | zero => intro url attempt s; exact frame4_id s
  | succ f ih =>
    intro url attempt s
    unfold fetchWithRedirects
    by_cases hr : env.runningAt s.tick = false
    · rw [if_pos hr]; exact frame4_id s
    · rw [if_neg hr]
      by_cases hatt : cfg.retries < attempt
      · rw [if_pos hatt]; exact frame4_id s
      · rw [if_neg hatt]
        by_cases hub : cfg.use_browser
        · rw [if_pos hub]
          dsimp only
          cases hbo : env.browserOp s.tick with
          | some html => exact ⟨rfl, rfl, rfl, rfl⟩
          | none =>
            dsimp only
            by_cases hlt : attempt < cfg.retries
            · rw [if_pos hlt]
              exact ih url (attempt + 1) _
            · rw [if_neg hlt]; exact ⟨rfl, rfl, rfl, rfl⟩
        · rw [if_neg hub]
          dsimp only
          cases hga : env.get s.tick with
          | success r =>
            dsimp only
            by_cases hst : r.status ∈ redirectCodes
            · rw [if_pos hst]
              cases hloc : r.location with
              | none => exact ⟨rfl, rfl, rfl, rfl⟩
              | some loc =>
                dsimp only
                exact ih (env.join url loc) attempt _
            · rw [if_neg hst]
              by_cases h200 : r.status ≠ 200
              · rw [if_pos h200]; exact ⟨rfl, rfl, rfl, rfl⟩
              · rw [if_neg h200]; exact ⟨rfl, rfl, rfl, rfl⟩
          | netErr =>
            dsimp only
            exact ih url (attempt + 1) _
          | otherErr =>
            dsimp only
            by_cases hlt : attempt < cfg.retries
            · rw [if_pos hlt]; exact ih url (attempt + 1) _
            · rw [if_neg hlt]; exact ⟨rfl, rfl, rfl, rfl⟩

theorem saveFileSt_frame (env : Env) (u c : String) (b : Bool) (ct : String) (s : State) :
    Frame4 s (saveFileSt env u c b ct s) := ⟨rfl, rfl, rfl, rfl⟩

theorem analyzeJs_frame4 (env : Env) (c u : String) (s : State) :
    Frame4 s (analyzeJs env c u s) := by
  unfold analyzeJs
  cases env.jsParse c <;> exact ⟨rfl, rfl, rfl, rfl⟩

theorem metaStep_frame (doc : List Elem) (s : State) : Frame4 s (metaStep doc s) := by
  unfold metaStep
  cases firstNameOrProp doc with
  | none => exact frame4_id s
  | some n =>
    cases firstContentAttr doc with
    | none => exact frame4_id s
    | some v =>
      dsimp only
      by_cases h : n = "" ∨ v = ""
      · rw [if_pos h]; exact frame4_id s
      · rw [if_neg h]; exact ⟨rfl, rfl, rfl, rfl⟩

theorem analyzeMeta_frame (doc : List Elem) (s : State) : Frame4 s (analyzeMeta doc s) := by
  unfold analyzeMeta
  generalize metaElems doc = l
  induction l generalizing s with
  | nil => exact frame4_id s
  | cons a t ih =>
    rw [List.foldl_cons]
    exact frame4_trans (metaStep_frame doc s) (ih _)

/-- The asset retry loop never touches the visited set, the sitemap or the
fetch logs (the logical asset fetch was recorded by `_download_asset`
before the loop). -/
theorem assetLoop_frame (env : Env) (cfg : Config) (u : String) :
    ∀ l s, Frame4 s (assetLoop env cfg u l s) := by
  intro l
  induction l with
  | nil => intro s; exact frame4_id s
  | cons a t ih =>
    intro s
    unfold assetLoop
    dsimp only
    cases hg : env.get s.tick with
    | success r =>
      dsimp only
      by_cases hst : r.status = 200
      · rw [if_pos hst]
        by_cases hjs : (strContains (strLower r.contentType) "javascript" &&
            !(!strContains (strLower r.contentType) "text" &&
              !strContains (strLower r.contentType) "html")) = true
        · rw [if_pos hjs]
          refine ⟨?_, ?_, ?_, ?_⟩
          · rw [(analyzeJs_frame4 env r.body u _).1]
            rfl
          · rw [(analyzeJs_frame4 env r.body u _).2.1]
            rfl
          · rw [(analyzeJs_frame4 env r.body u _).2.2.1]
            rfl
          · rw [(analyzeJs_frame4 env r.body u _).2.2.2]
            rfl
        · rw [if_neg hjs]
          exact ⟨rfl, rfl, rfl, rfl⟩
      · rw [if_neg hst]
        exact frame4_trans (⟨rfl, rfl, rfl, rfl⟩ : Frame4 s _) (ih _)
    | netErr =>
      dsimp only
      by_cases hlt : a < cfg.retries
      · rw [if_pos hlt]
        exact frame4_trans (⟨rfl, rfl, rfl, rfl⟩ : Frame4 s _) (ih _)
      · rw [if_neg hlt]
        exact frame4_trans (⟨rfl, rfl, rfl, rfl⟩ : Frame4 s _) (ih _)
    | otherErr => exact ⟨rfl, rfl, rfl, rfl⟩

/-- The C1 session invariant: no duplicates in the visited set or the
sitemap, every sitemap entry and every logged fetch URL is in the visited
set, and every URL has at most one logged fetch (page or asset)
altogether. -/
def Inv (s : State) : Prop :=
  s.visited.Nodup ∧ s.sitemap.Nodup ∧
  (∀ u ∈ s.sitemap, u ∈ s.visited) ∧
  (∀ e ∈ s.pageFetches, e.1 ∈ s.visited) ∧
  (∀ u ∈ s.assetFetches, u ∈ s.visited) ∧
  (∀ u : String, ((s.pageFetches.map Prod.fst) ++ s.assetFetches).count u ≤ 1)

theorem inv_of_frame4 {s s' : State} (h : Frame4 s s') (hi : Inv s) : Inv s' := by
  unfold Inv
  rw [h.1, h.2.1, h.2.2.1, h.2.2.2]
  exact hi

theorem inv_initState : Inv initState := by
  refine ⟨List.nodup_nil, List.nodup_nil, ?_, ?_, ?_, ?_⟩ <;> intro u <;> simp [initState]

/-- A generic preservation helper for the asset fan-out and link loops. -/
theorem foldl_inv {α : Type} (f : α → State → State) (P : State → Prop)
    (hf : ∀ a st, P st → P (f a st)) :
    ∀ (l : List α) (st : State), P st → P (l.foldl (fun acc a => f a acc) st) := by
  intro l
  induction l with
  | nil => intro st h; exact h
  | cons a t ih =>
    intro st h
    rw [List.foldl_cons]
    exact ih _ (hf a st h)

/-- Adding a fresh URL to the visited set together with one fetch-log entry
preserves the fetch-count bound. -/
theorem count_step (pf : List (String × Nat)) (af : List String) (vis : List String)
    (url : String)
    (hpf : ∀ e ∈ pf, e.1 ∈ vis) (haf : ∀ u ∈ af, u ∈ vis) (hv : url ∉ vis)
    (hcount : ∀ u : String, (pf.map Prod.fst ++ af).count u ≤ 1) :
    ∀ u : String, (pf.map Prod.fst ++ (af ++ [url])).count u ≤ 1 := by
  intro u
  by_cases hu : u = url
  · subst hu
    have h1 : (pf.map Prod.fst).count u = 0 := by
      rw [List.count_eq_zero]
      intro hmem
      obtain ⟨e, he, hfst⟩ := List.mem_map.mp hmem
      exact hv (hfst ▸ hpf e he)
    have h2 : af.count u = 0 := by
      rw [List.count_eq_zero]
      intro hmem
      exact hv (haf u hmem)
    simp [List.count_append, h1, h2]
  · have := hcount u
    simp only [List.count_append] at this ⊢
    have h3 : [url].count u = 0 := by
      rw [List.count_eq_zero]
      simp [hu]
    omega

/-- The same bound for a fresh page-fetch entry. -/
theorem count_step_page (pf : List (String × Nat)) (af : List String) (vis : List String)
    (url : String) (dep : Nat)
    (hpf : ∀ e ∈ pf, e.1 ∈ vis) (haf : ∀ u ∈ af, u ∈ vis) (hv : url ∉ vis)
    (hcount : ∀ u : String, (pf.map Prod.fst ++ af).count u ≤ 1) :
    ∀ u : String, ((pf ++ [(url, dep)]).map Prod.fst ++ af).count u ≤ 1 := by
  intro u
  by_cases hu : u = url
  · subst hu
    have h1 : (pf.map Prod.fst).count u = 0 := by
      rw [List.count_eq_zero]
      intro hmem
      obtain ⟨e, he, hfst⟩ := List.mem_map.mp hmem
      exact hv (hfst ▸ hpf e he)
    have h2 : af.count u = 0 := by
      rw [List.count_eq_zero]
      intro hmem
      exact hv (haf u hmem)
    simp [List.count_append, h1, h2]
  · have := hcount u
    simp only [List.map_append, List.map_cons, List.map_nil, List.count_append] at this ⊢
    have h3 : ([(url, dep)].map Prod.fst).count u = 0 := by
      rw [List.count_eq_zero]
      simp [hu]
    simp only [List.map_cons, List.map_nil] at h3
    omega

/-- `_download_asset` preserves the session invariant: the URL is added to
the visited set exactly when it is fresh, together with exactly one asset
fetch record. -/
theorem downloadAsset_inv (env : Env) (cfg : Config) (url : String) (s : State)
    (hi : Inv s) : Inv (downloadAsset env cfg url s) := by
  unfold downloadAsset
  by_cases hr : env.runningAt s.tick = false
  · rw [if_pos hr]; exact hi
  · rw [if_neg hr]
    by_cases hg : url ∈ s.visited ∨ env.filterUrl url = false
    · rw [if_pos hg]; exact hi
    · rw [if_neg hg]
      push_neg at hg
      obtain ⟨h1, h2, h3, h4, h5, h6⟩ := hi
      refine inv_of_frame4 (assetLoop_frame env cfg url _ _) ?_
      refine ⟨List.nodup_cons.mpr ⟨hg.1, h1⟩, h2, ?_, ?_, ?_, ?_⟩
      · intro u hu
        exact List.mem_cons_of_mem _ (h3 u hu)
      · intro e he
        exact List.mem_cons_of_mem _ (h4 e he)
      · intro u hu
        rcases List.mem_append.mp hu with h | h
        · exact List.mem_cons_of_mem _ (h5 u h)
        · have : u = url := by simpa using h
          rw [this]
          exact List.mem_cons_self _ _
      · exact count_step s.pageFetches s.assetFetches s.visited url h4 h5 hg.1 h6

/-- `_crawl_page` preserves the session invariant: a page URL is added to
the visited set and the sitemap exactly when it is fresh, together with
exactly one page fetch record. -/
theorem crawlPage_inv (env : Env) (cfg : Config) :
    ∀ fuel url dep s, Inv s → Inv (crawlPage env cfg fuel url dep s) := by
  intro fuel
  induction fuel with
  | zero => intro url dep s hi; exact hi
  | succ f ih =>
    intro url dep s hi
    unfold crawlPage
    by_cases hstop : env.runningAt s.tick = false ∨ cfg.crawl_depth < dep ∨ url ∈ s.visited
    · rw [if_pos hstop]; exact hi
    · rw [if_neg hstop]
      by_cases hf : env.filterUrl url = false
      · rw [if_pos hf]; exact hi
      · rw [if_neg hf]
        dsimp only
        push_neg at hstop
        have hv : url ∉ s.visited := hstop.2.2
        have hs1 : Inv { s with
            visited := url :: s.visited,
            sitemap := s.sitemap ++ [url],
            pageFetches := s.pageFetches ++ [(url, dep)] } := by
          obtain ⟨h1, h2, h3, h4, h5, h6⟩ := hi
          refine ⟨List.nodup_cons.mpr ⟨hv, h1⟩, ?_, ?_, ?_, ?_, ?_⟩
          · rw [List.nodup_append]
            refine ⟨h2, List.nodup_singleton url, ?_⟩
            intro x hx hx'
            have : x = url := by simpa using hx'
            exact hv (this ▸ h3 x hx)
          · intro u hu
            rcases List.mem_append.mp hu with h | h
            · exact List.mem_cons_of_mem _ (h3 u h)
            · have : u = url := by simpa using h
              rw [this]
              exact List.mem_cons_self _ _
          · intro e he
            rcases List.mem_append.mp he with h | h
            · exact List.mem_cons_of_mem _ (h4 e h)
            · have : e = (url, dep) := by simpa using h
              rw [this]
              exact List.mem_cons_self _ _
          · intro u hu
            exact List.mem_cons_of_mem _ (h5 u hu)
          · exact count_step_page s.pageFetches s.assetFetches s.visited url dep h4 h5 hv h6
        have hs2 := inv_of_frame4 (fetchWR_frame env cfg cfg.fetchFuel url 1 _) hs1
        cases hfetch : fetchWithRedirects env cfg cfg.fetchFuel url 1
            { s with
              visited := url :: s.visited,
              sitemap := s.sitemap ++ [url],
              pageFetches := s.pageFetches ++ [(url, dep)] } with
        | mk finalUrl rest =>
          cases rest with
          | mk content s2 =>
            rw [hfetch] at hs2
            cases content with
            | none => exact hs2
            | some body =>
              dsimp only
              by_cases hemp : body = ""
              · rw [if_pos hemp]; exact hs2
              · rw [if_neg hemp]
                have hs3 := inv_of_frame4 (saveFileSt_frame env finalUrl body false "text/html" s2) hs2
                have hs4 := inv_of_frame4 (analyzeMeta_frame (env.parseDoc body) _) hs3
                have hs5 := foldl_inv (fun a st => downloadAsset env cfg (env.join finalUrl a) st)
                  Inv (fun a st h => downloadAsset_inv env cfg (env.join finalUrl a) st h)
                  (env.parse body).assets _ hs4
                exact foldl_inv
                  (fun l st => if (urlsplit (env.join finalUrl l)).netloc = cfg.root_domain then
                    crawlPage env cfg f (env.join finalUrl l) (dep + 1) st else st)
                  Inv
                  (fun l st h => by
                    dsimp only
                    by_cases hc : (urlsplit (env.join finalUrl l)).netloc = cfg.root_domain
                    · rw [if_pos hc]; exact ih (env.join finalUrl l) (dep + 1) st h
                    · rw [if_neg hc]; exact h)
                  (env.parse body).links _ hs5

/-- C1: in every run (any environment, configuration, root URL and
recursion bound), each URL appears in the visited set at most once and in
the sitemap at most once, every logged page or asset fetch was preceded by
adding its URL to the visited set (membership is exact string equality on
the embedded `visited` list, with no normalization), and at most one
logical fetch — page or asset, combined — is ever recorded per URL
string. -/
theorem claim1_visited_once (env : Env) (cfg : Config) (fuel : Nat) (url : String) :
    (crawlPage env cfg fuel url 0 initState).visited.Nodup ∧
    (crawlPage env cfg fuel url 0 initState).sitemap.Nodup ∧
    (∀ u ∈ (crawlPage env cfg fuel url 0 initState).sitemap,
      u ∈ (crawlPage env cfg fuel url 0 initState).visited) ∧
    (∀ e ∈ (crawlPage env cfg fuel url 0 initState).pageFetches,
      e.1 ∈ (crawlPage env cfg fuel url 0 initState).visited) ∧
    (∀ u ∈ (crawlPage env cfg fuel url 0 initState).assetFetches,
      u ∈ (crawlPage env cfg fuel url 0 initState).visited) ∧
    (∀ u : String,
      (((crawlPage env cfg fuel url 0 initState).pageFetches.map Prod.fst) ++
        (crawlPage env cfg fuel url 0 initState).assetFetches).count u ≤ 1) :=
  crawlPage_inv env cfg fuel url 0 initState inv_initState

/-- Concrete single-page environment used by the C1 and C2 witnesses. -/
def envPage : Env :=
  ⟨fun _ => true, fun _ => GetResult.success ⟨200, none, "text/html", "hello"⟩,
   fun _ => none, fun _ => ⟨[], []⟩, fun _ => [], fun _ u => u, fun _ => true,
   fun _ => none, fun _ => none⟩

/-- Witness for `claim1_visited_once` on a concrete one-page crawl. -/
theorem claim1_visited_once_witness :
    ("u" ∈ (crawlPage envPage cfgR3 2 "u" 0 initState).sitemap →
      "u" ∈ (crawlPage envPage cfgR3 2 "u" 0 initState).visited) ∧
    ("u" ∈ (crawlPage envPage cfgR3 2 "u" 0 initState).visited) ∧
    ((((crawlPage envPage cfgR3 2 "u" 0 initState).pageFetches.map Prod.fst) ++
      (crawlPage envPage cfgR3 2 "u" 0 initState).assetFetches).count "u" ≤ 1) :=
  ⟨fun hmem => (claim1_visited_once envPage cfgR3 2 "u").2.2.1 "u" hmem,
   (claim1_visited_once envPage cfgR3 2 "u").2.2.1 "u" (by decide),
   (claim1_visited_once envPage cfgR3 2 "u").2.2.2.2.2 "u"⟩

/-- Relation helper for the link loop of C2. -/
theorem foldl_pageRel {α : Type} (f : α → State → State) (G : String × Nat → Prop)
    (hf : ∀ a st, ∀ e ∈ (f a st).pageFetches, e ∈ st.pageFetches ∨ G e) :
    ∀ (l : List α) (st : State),
      ∀ e ∈ (l.foldl (fun acc a => f a acc) st).pageFetches, e ∈ st.pageFetches ∨ G e := by
  intro l
  induction l with
  | nil => intro st e he; exact Or.inl he
  | cons a t ih =>
    intro st e he
    rw [List.foldl_cons] at he
    rcases ih (f a st) e he with h | h
    · exact hf a st e h
    · exact Or.inr h

/-- C2: every page fetch recorded by a crawl started at depth `dep` — in
any environment and any starting state — either was already recorded, or
has a depth between `dep` and the configured `crawl_depth` inclusive: the
depth-exceeded guard runs before the fetch, and each link recursion uses
`depth + 1`, so depth is monotonically non-decreasing along the traversal
and never exceeds the bound (in particular, from the root call at depth 0,
every fetched page has depth between 0 and `crawl_depth`). -/
theorem claim2_depth_bound (env : Env) (cfg : Config) :
    ∀ fuel url dep s, ∀ e ∈ (crawlPage env cfg fuel url dep s).pageFetches,
      e ∈ s.pageFetches ∨ (dep ≤ e.2 ∧ e.2 ≤ cfg.crawl_depth) := by
  intro fuel
  induction fuel with
  | zero => intro url dep s e he; exact Or.inl he
  | succ f ih =>
    intro url dep s e he
    unfold crawlPage at he
    by_cases hstop : env.runningAt s.tick = false ∨ cfg.crawl_depth < dep ∨ url ∈ s.visited
    · rw [if_pos hstop] at he; exact Or.inl he
    · rw [if_neg hstop] at he
      by_cases hfil : env.filterUrl url = false
      · rw [if_pos hfil] at he; exact Or.inl he
      · rw [if_neg hfil] at he
        dsimp only at he
        push_neg at hstop
        have hdep : dep ≤ cfg.crawl_depth := hstop.2.1
        have hnew : ∀ e' : String × Nat,
            e' ∈ s.pageFetches ++ [(url, dep)] →
            e' ∈ s.pageFetches ∨ (dep ≤ e'.2 ∧ e'.2 ≤ cfg.crawl_depth) := by
          intro e' he'
          rcases List.mem_append.mp he' with h | h
          · exact Or.inl h
          · have : e' = (url, dep) := by simpa using h
            rw [this]
            exact Or.inr ⟨le_refl dep, hdep⟩
        cases hfetch : fetchWithRedirects env cfg cfg.fetchFuel url 1
            { s with
              visited := url :: s.visited,
              sitemap := s.sitemap ++ [url],
              pageFetches := s.pageFetches ++ [(url, dep)] } with
        | mk finalUrl rest =>
          cases rest with
          | mk content s2 =>
            have hs2 : s2.pageFetches = s.pageFetches ++ [(url, dep)] := by
              have h := (fetchWR_frame env cfg cfg.fetchFuel url 1
                { s with
                  visited := url :: s.visited,
                  sitemap := s.sitemap ++ [url],
                  pageFetches := s.pageFetches ++ [(url, dep)] }).2.2.1
              rw [hfetch] at h
              exact h
            rw [hfetch] at he
            cases content with
            | none => exact hnew e (hs2 ▸ he)
            | some body =>
              dsimp only at he
              by_cases hemp : body = ""
              · rw [if_pos hemp] at he
                exact hnew e (hs2 ▸ he)
              · rw [if_neg hemp] at he
                have hs4 : (analyzeMeta (env.parseDoc body)
                    (saveFileSt env finalUrl body false "text/html" s2)).pageFetches =
                    s.pageFetches ++ [(url, dep)] := by
                  rw [(analyzeMeta_frame (env.parseDoc body) _).2.2.1]
                  rw [(saveFileSt_frame env finalUrl body false "text/html" s2).2.2.1]
                  exact hs2
                have hs5 : ∀ e' : String × Nat,
                    e' ∈ ((env.parse body).assets.foldl
                      (fun acc a => downloadAsset env cfg (env.join finalUrl a) acc)
                      (analyzeMeta (env.parseDoc body)
                        (saveFileSt env finalUrl body false "text/html" s2))).pageFetches →
                    e' ∈ s.pageFetches ∨ (dep ≤ e'.2 ∧ e'.2 ≤ cfg.crawl_depth) := by
                  intro e' he'
                  have hfold := foldl_pageRel
                    (fun a st => downloadAsset env cfg (env.join finalUrl a) st)
                    (fun _ => False)
                    (fun a st e'' he'' => by
                      left
                      dsimp only at he''
                      unfold downloadAsset at he''
                      by_cases hr : env.runningAt st.tick = false
                      · rw [if_pos hr] at he''; exact he''
                      · rw [if_neg hr] at he''
                        by_cases hg : env.join finalUrl a ∈ st.visited ∨
                            env.filterUrl (env.join finalUrl a) = false
                        · rw [if_pos hg] at he''; exact he''
                        · rw [if_neg hg] at he''
                          dsimp only at he''
                          rw [(assetLoop_frame env cfg (env.join finalUrl a) _ _).2.2.1] at he''
                          exact he'')
                    (env.parse body).assets _ e' he'
                  rcases hfold with h | h
                  · exact hnew e' (hs4 ▸ h)
                  · exact absurd h (by simp)
                have hlinks := foldl_pageRel
                  (fun l st => if (urlsplit (env.join finalUrl l)).netloc = cfg.root_domain
                    then crawlPage env cfg f (env.join finalUrl l) (dep + 1) st else st)
                  (fun e' => dep + 1 ≤ e'.2 ∧ e'.2 ≤ cfg.crawl_depth)
                  (fun l st e'' he'' => by
                    dsimp only at he''
                    by_cases hc : (urlsplit (env.join finalUrl l)).netloc = cfg.root_domain
                    · rw [if_pos hc] at he''
                      exact ih (env.join finalUrl l) (dep + 1) st e'' he''
                    · rw [if_neg hc] at he''; exact Or.inl he'')
                  (env.parse body).links _ e he
                rcases hlinks with h | h
                · exact hs5 e h
                · exact Or.inr ⟨by omega, h.2⟩

/-- Witness for `claim2_depth_bound`: the root page fetch of a concrete
crawl has depth between 0 and the configured maximum. -/
theorem claim2_depth_bound_witness :
    (("u", 0) ∈ (crawlPage envPage cfgR3 2 "u" 0 initState).pageFetches) ∧
    (("u", 0) ∈ initState.pageFetches ∨ (0 ≤ ("u", 0).2 ∧ ("u", 0).2 ≤ cfgR3.crawl_depth)) :=
  ⟨by decide,
   claim2_depth_bound envPage cfgR3 2 "u" 0 initState ("u", 0) (by decide)⟩

end Masyde
